import Mathlib

/-!
# Verification of the `user-image-classifier` repository

Shallow embedding of the state-manipulating parts of
`src/user_image_classifier/main.py` and `src/user_image_classifier/cleanup.py`,
together with theorems settling the specification claims.

Filesystem paths are modelled as (directory, stem, extension) triples; a
filesystem is an association list from paths to file data.  Hashing
(`hash_file`, SHA-256) enters the code's behaviour only through equality of
digests, so it is modelled as an arbitrary function from file contents to
strings, passed as a parameter.
-/

set_option maxHeartbeats 1000000
set_option linter.unusedVariables false

namespace UIC

/-- A filesystem path, split as directory, stem and extension.
`Path.name` in Python corresponds to `stem ++ "." ++ ext`;
`Path.with_suffix(".json")` corresponds to replacing `ext` by `"json"`. -/
structure FsPath where
  dir : String
  stem : String
  ext : String
deriving DecidableEq, Repr

instance : Inhabited FsPath := ⟨⟨"", "", ""⟩⟩

/-- `Path.with_suffix(".json")`: same directory and stem, extension `json`. -/
def withSuffixJson (p : FsPath) : FsPath :=
  { p with ext := "json" }

/-- Generic association-list filesystem: lookup (Python `exists` / `open`). -/
def fsLookup {α : Type} : List (FsPath × α) → FsPath → Option α
  | [], _ => none
  | (q, d) :: rest, p => if q = p then some d else fsLookup rest p

/-- Removing a path (Python `unlink`). -/
def fsErase {α : Type} (fs : List (FsPath × α)) (p : FsPath) : List (FsPath × α) :=
  fs.filter (fun e => e.1 ≠ p)

/-- Writing a path, overwriting any existing entry. -/
def fsSet {α : Type} (fs : List (FsPath × α)) (p : FsPath) (d : α) : List (FsPath × α) :=
  (p, d) :: fsErase fs p

/-- `shutil.move(src, dest)`: the destination receives the source's data and
the source disappears.  (With a missing source Python would raise; the model
leaves the filesystem unchanged, the situation is unreachable.) -/
def fsMove {α : Type} (fs : List (FsPath × α)) (src dest : FsPath) : List (FsPath × α) :=
  match fsLookup fs src with
  | none => fs
  | some d => fsSet (fsErase fs src) dest d

/-- `shutil.copy2(src, dest)`: destination receives the source's data, the
source stays. -/
def fsCopy {α : Type} (fs : List (FsPath × α)) (src dest : FsPath) : List (FsPath × α) :=
  match fsLookup fs src with
  | none => fs
  | some d => fsSet fs dest d

/-! ## `cleanup.py` -/

/-- File contents, as a byte list (only length and hash are observed). -/
abbrev Content := List Nat

/-- A content filesystem, mapping paths to byte contents. -/
abbrev CFs := List (FsPath × Content)

/-- `_calculate_key`: `(file_size, file_hash)` of an image, `none` when the
file does not exist (`FileNotFoundError`). -/
def calculateKey (hashFn : Content → String) (fs : CFs) (p : FsPath) :
    Option (Nat × String) :=
  match fsLookup fs p with
  | none => none
  | some c => some (c.length, hashFn c)

/-- Python `dict` assignment `hashes[key] = path`: replace if present,
otherwise append. -/
def insertKey (m : List ((Nat × String) × FsPath)) (k : Nat × String) (p : FsPath) :
    List ((Nat × String) × FsPath) :=
  if m.any (fun e => e.1 = k) then
    m.map (fun e => if e.1 = k then (e.1, p) else e)
  else m ++ [(k, p)]

/-- Membership test `key in hashes`. -/
def hasKey (m : List ((Nat × String) × FsPath)) (k : Nat × String) : Bool :=
  m.any (fun e => e.1 = k)

/-- State of the `cleanup_images` main loop: the (possibly mutated)
filesystem, the `hashes` dict and the `duplicates_found` counter. -/
structure CleanupState where
  fs : CFs
  hashes : List ((Nat × String) × FsPath)
  count : Nat
deriving Repr

/-- One iteration of the `for image_path in sorted(images)` loop of
`cleanup_images`. -/
def cleanupStep (hashFn : Content → String) (dryRun : Bool)
    (s : CleanupState) (p : FsPath) : CleanupState :=
  let metadataFile := withSuffixJson p
  if (fsLookup s.fs metadataFile).isNone then s
  else
    match calculateKey hashFn s.fs p with
    | none => s
    | some key =>
      if hasKey s.hashes key then
        if dryRun then { s with count := s.count + 1 }
        else
          { s with
            fs := fsErase (fsErase s.fs p) metadataFile
            count := s.count + 1 }
      else { s with hashes := insertKey s.hashes key p }

/-- The golden-directory scan: record `(size, hash) ↦ path` for every golden
image that exists (no metadata requirement). -/
def goldenScan (hashFn : Content → String) (fs : CFs) (golden : List FsPath) :
    List ((Nat × String) × FsPath) :=
  golden.foldl
    (fun m g =>
      match calculateKey hashFn fs g with
      | none => m
      | some k => insertKey m k g)
    []

/-- `cleanup_images`.  `images` is the input-image enumeration in sorted path
order (Python iterates `sorted(find_images(input_dirs))`).  The returned
`count` field is the function's return value `duplicates_found`. -/
def cleanupImages (hashFn : Content → String) (fs : CFs)
    (golden : List FsPath) (images : List FsPath) (dryRun : Bool) : CleanupState :=
  images.foldl (cleanupStep hashFn dryRun)
    { fs := fs, hashes := goldenScan hashFn fs golden, count := 0 }

/-- One step of the claim's duplicate criterion, worded without the metadata
condition: an image with a computable key is a duplicate exactly when the key
was previously recorded; otherwise it is recorded (first-seen kept). -/
def specStep (hashFn : Content → String) (fs : CFs)
    (st : List ((Nat × String) × FsPath) × Nat) (p : FsPath) :
    List ((Nat × String) × FsPath) × Nat :=
  match calculateKey hashFn fs p with
  | none => st
  | some key =>
    if hasKey st.1 key then (st.1, st.2 + 1)
    else (insertKey st.1 key p, st.2)

/-- The duplicate criterion exactly as the claim words it (no metadata
condition): an input image is a duplicate exactly when its `(size, hash)` pair
equals that of a previously recorded image — a golden image or an earlier,
first-seen input image. -/
def specDuplicateCount (hashFn : Content → String) (fs : CFs)
    (golden : List FsPath) (images : List FsPath) : Nat :=
  (images.foldl (specStep hashFn fs) (goldenScan hashFn fs golden, 0)).2

/-- One step of the amended criterion: images without a sibling `.json`
metadata file (in the file state `fs`) are skipped entirely. -/
def specMetaStep (hashFn : Content → String) (fs : CFs)
    (st : List ((Nat × String) × FsPath) × Nat) (p : FsPath) :
    List ((Nat × String) × FsPath) × Nat :=
  if (fsLookup fs (withSuffixJson p)).isNone then st
  else specStep hashFn fs st p

/-- The amended duplicate criterion: as `specDuplicateCount`, but an input
image participates only when a sibling `.json` metadata file exists for it in
the file state. -/
def specDuplicateCountMeta (hashFn : Content → String) (fs : CFs)
    (golden : List FsPath) (images : List FsPath) : Nat :=
  (images.foldl (specMetaStep hashFn fs) (goldenScan hashFn fs golden, 0)).2

/-! ## `main.py`: data model -/

/-- A bare coordinate record, as written in the annotation JSON. -/
structure Box4 where
  x1 : ℚ
  y1 : ℚ
  x2 : ℚ
  y2 : ℚ
deriving DecidableEq, Repr

/-- A bounding box: four coordinates plus an optional class label
(the Python dict `{"x1": …, "y1": …, "x2": …, "y2": …, "label": …}`). -/
structure BBox where
  x1 : ℚ
  y1 : ℚ
  x2 : ℚ
  y2 : ℚ
  label : Option String
deriving DecidableEq, Repr

instance : Inhabited BBox := ⟨⟨0, 0, 0, 0, none⟩⟩

/-- Contents of a file in the GUI's filesystem: opaque raw data (images), or
parsed annotation data (a `.json` file mapping labels to coordinate lists,
in insertion order). -/
inductive FileData where
  | raw (tag : Nat)
  | annot (data : List (String × List Box4))
deriving DecidableEq, Repr

/-- The GUI filesystem. -/
abbrev MFs := List (FsPath × FileData)

/-- The `UndoableAction` hierarchy.  Bounding boxes are Python dicts held by
reference; the model allocates them in an arena (`GuiState.heap`) and actions
store arena ids. -/
inductive UAction where
  | addBoundingBox (ref : Nat)
  | deleteBoundingBox (ref : Nat) (index : Nat)
  | addLabel (ref : Nat) (oldLabel : Option String)
  | saveFile (sourcePath destPath : FsPath)
  | skipFile (sourcePath : FsPath)
  | deleteFile (originalPath renamedPath : FsPath)
      (originalJsonPath renamedJsonPath : Option FsPath) (isHardDelete : Bool)
deriving DecidableEq, Repr

/-- State of `ImageClassifierGUI` (the fields the claims are about; purely
visual fields — canvas items, crosshairs, colors — are not modelled, and
`display_image`'s pixel-size loading is not observed by any claim). -/
structure GuiState where
  fs : MFs
  imagePaths : List FsPath
  currentIndex : Int
  currentPath : FsPath
  heap : List BBox
  bboxes : List Nat
  bboxStack : List UAction
  fileStack : List UAction
  pending : List FsPath
  tempDir : String
  keyMap : List (String × String)
  selectedBboxIndex : Option Nat
  reallyDelete : Bool
  outputDir : Option String
  copy : Bool
  isDrawing : Bool
  imageOnCanvas : Bool
  imgX : ℚ
  imgY : ℚ
  zoomLevel : ℚ
  startX : ℚ
  startY : ℚ
  imageWidth : ℚ
  imageHeight : ℚ
  quitFlag : Bool
deriving DecidableEq, Repr

/-- Default `max_size` of `UndoManager` (both GUI stacks use it). -/
def maxUndo : Nat := 20

/-- Python `list.insert(n, x)` for `0 ≤ n` (clamps past the end). -/
def pyInsert {α : Type} (l : List α) (n : Nat) (x : α) : List α :=
  l.take n ++ x :: l.drop n

/-- Python `list.pop(n)` / `del l[n]` for a valid index `n`. -/
def pyRemoveAt {α : Type} (l : List α) (n : Nat) : List α :=
  l.take n ++ l.drop (n + 1)

/-- `set.add` on the pending-deletions set (modelled as a duplicate-free
list in insertion order). -/
def setInsert (s : List FsPath) (p : FsPath) : List FsPath :=
  if p ∈ s then s else s ++ [p]

/-- Insert several paths in order. -/
def insertAll (s : List FsPath) (l : List FsPath) : List FsPath :=
  l.foldl setInsert s

/-- Dereference a bounding-box arena id. -/
def heapGetB (heap : List BBox) (r : Nat) : BBox :=
  heap.getD r default

/-- The staged files a hard-delete action schedules on finalization
(in scheduling order). -/
def stagedPaths : UAction → List FsPath
  | .deleteFile _ renamedPath _ renamedJsonPath true =>
    renamedPath :: (match renamedJsonPath with | some rj => [rj] | none => [])
  | _ => []

/-- `UndoableAction.finalize`: no-op by default; a hard `DeleteFileAction`
adds its staged image (and JSON file, when present) to
`gui.pending_deletions`. -/
def finalizeAction (a : UAction) (g : GuiState) : GuiState :=
  match a with
  | .deleteFile _ renamedPath _ renamedJsonPath isHard =>
    if isHard then
      let p1 := setInsert g.pending renamedPath
      let p2 := match renamedJsonPath with
        | some rj => setInsert p1 rj
        | none => p1
      { g with pending := p2 }
    else g
  | _ => g

/-- `UndoManager.register_action` on a stack with capacity `maxLen`
(`deque(maxlen=maxLen)`): when the stack is full, the oldest action is
finalized and then dropped as the new action is appended. -/
def registerAction (maxLen : Nat) (gs : GuiState × List UAction) (a : UAction) :
    GuiState × List UAction :=
  if gs.2.length = maxLen then
    (finalizeAction (gs.2.headD a) gs.1, gs.2.tail ++ [a])
  else (gs.1, gs.2 ++ [a])

/-- A whole sequence of `register_action` calls. -/
def registerSeq (maxLen : Nat) (gs : GuiState × List UAction)
    (acts : List UAction) : GuiState × List UAction :=
  acts.foldl (registerAction maxLen) gs

/-- `self.file_undo_manager.register_action(a)`. -/
def registerFileAction (g : GuiState) (a : UAction) : GuiState :=
  let r := registerAction maxUndo (g, g.fileStack) a
  { r.1 with fileStack := r.2 }

/-- `self.bbox_undo_manager.register_action(a)`. -/
def registerBboxAction (g : GuiState) (a : UAction) : GuiState :=
  let r := registerAction maxUndo (g, g.bboxStack) a
  { r.1 with bboxStack := r.2 }

/-- `PendingDeletions.clear`: unlink every pending file, empty the set, and
clean up the temporary holding directory (removing anything still in it). -/
def pendingClear (g : GuiState) : GuiState :=
  let fs1 := g.pending.foldl (fun fs p => fsErase fs p) g.fs
  { g with fs := fs1.filter (fun e => e.1.dir ≠ g.tempDir), pending := [] }

/-- Allocate a fresh bounding box and append it to `self.bboxes`. -/
def allocBox (g : GuiState) (b : BBox) : GuiState :=
  { g with heap := g.heap ++ [b], bboxes := g.bboxes ++ [g.heap.length] }

/-- `_load_json_metadata`: append one labelled box per entry of the file. -/
def loadJsonMetadata (g : GuiState) (data : List (String × List Box4)) : GuiState :=
  data.foldl
    (fun g e => e.2.foldl
      (fun g b => allocBox g ⟨b.x1, b.y1, b.x2, b.y2, some e.1⟩) g)
    g

/-- `display_image`: clear the bbox undo stack and box list, reset zoom and
selection; with an empty queue, quit; otherwise make the indexed path current
and load its existing `.json` metadata when present. -/
def displayImage (g : GuiState) : GuiState :=
  let g := { g with bboxStack := [], bboxes := [], zoomLevel := 1,
                    selectedBboxIndex := none }
  if g.imagePaths = [] then { g with quitFlag := true }
  else
    let cur := g.imagePaths.getD g.currentIndex.toNat default
    let g := { g with currentPath := cur }
    match fsLookup g.fs (withSuffixJson cur) with
    | some (FileData.annot data) => loadJsonMetadata g data
    | _ => g

/-- `UndoableAction.undo`, per action class. -/
def applyUndo (a : UAction) (g : GuiState) : GuiState :=
  match a with
  | .addBoundingBox r =>
    { g with bboxes :=
        g.bboxes.eraseP (fun i => decide (heapGetB g.heap i = heapGetB g.heap r)) }
  | .deleteBoundingBox r idx =>
    { g with bboxes := pyInsert g.bboxes idx r }
  | .addLabel r oldLabel =>
    { g with heap := g.heap.set r { heapGetB g.heap r with label := oldLabel } }
  | .saveFile sourcePath destPath =>
    displayImage { g with
      fs := fsMove g.fs destPath sourcePath,
      imagePaths := pyInsert g.imagePaths g.currentIndex.toNat sourcePath }
  | .skipFile sourcePath =>
    displayImage { g with
      imagePaths := pyInsert g.imagePaths g.currentIndex.toNat sourcePath }
  | .deleteFile originalPath renamedPath originalJsonPath renamedJsonPath _ =>
    let fs1 := fsMove g.fs renamedPath originalPath
    let fs2 := match renamedJsonPath, originalJsonPath with
      | some rj, some oj => fsMove fs1 rj oj
      | _, _ => fs1
    displayImage { g with
      fs := fs2,
      imagePaths := pyInsert g.imagePaths g.currentIndex.toNat originalPath }

/-- `self.file_undo_manager.undo(self)`: pop and invert the most recent
action; with an empty stack, print a notice and change nothing. -/
def fileUndo (g : GuiState) : GuiState :=
  match g.fileStack.getLast? with
  | none => g
  | some a => applyUndo a { g with fileStack := g.fileStack.dropLast }

/-- `self.bbox_undo_manager.undo(self)`. -/
def bboxUndo (g : GuiState) : GuiState :=
  match g.bboxStack.getLast? with
  | none => g
  | some a => applyUndo a { g with bboxStack := g.bboxStack.dropLast }

/-- The Backspace branch of `handle_key_press`. -/
def handleBackspace (g : GuiState) : GuiState :=
  if g.isDrawing then g
  else if g.bboxStack.isEmpty then fileUndo g
  else bboxUndo g

/-- `navigate(delta)`: wrap the index modulo the queue length. -/
def navigate (g : GuiState) (delta : Int) : GuiState :=
  if g.imagePaths = [] then g
  else
    displayImage
      { g with currentIndex := (g.currentIndex + delta) % (g.imagePaths.length : Int) }

/-- `_update_after_removal`: clamp the index to the last valid position,
then redisplay. -/
def updateAfterRemoval (g : GuiState) : GuiState :=
  let g :=
    if g.imagePaths ≠ [] ∧ (g.imagePaths.length : Int) ≤ g.currentIndex then
      { g with currentIndex := (g.imagePaths.length : Int) - 1 }
    else g
  displayImage g

/-- Append a box under its label in the output dict
(`output_data[label].append(…)`, with dict insertion order). -/
def addBoxToData (data : List (String × List Box4)) (lab : String) (b : Box4) :
    List (String × List Box4) :=
  if data.any (fun e => e.1 = lab) then
    data.map (fun e => if e.1 = lab then (e.1, e.2 ++ [b]) else e)
  else data ++ [(lab, [b])]

/-- One box of `_save_json_format`'s grouping loop: boxes whose label is
falsy (`None` or the empty string) are skipped, the rest are appended under
their label. -/
def saveJsonStep (data : List (String × List Box4)) (bb : BBox) :
    List (String × List Box4) :=
  match bb.label with
  | none => data
  | some lab =>
    if lab = "" then data
    else addBoxToData data lab ⟨bb.x1, bb.y1, bb.x2, bb.y2⟩

/-- `_save_json_format`'s `output_data`. -/
def saveJsonFormat (bboxes : List BBox) : List (String × List Box4) :=
  bboxes.foldl saveJsonStep []

/-- Character class `\d` of the suffix-stripping pattern. -/
def isDigitCh (c : Char) : Bool :=
  decide ('0' ≤ c) && decide (c ≤ '9')

/-- Character class `[a-zA-Z_]` of the suffix-stripping pattern. -/
def isAlphaUnd (c : Char) : Bool :=
  (decide ('a' ≤ c) && decide (c ≤ 'z')) || (decide ('A' ≤ c) && decide (c ≤ 'Z'))
    || decide (c = '_')

/-- `re.sub(r"__\d+[a-zA-Z_]+", "", name)`: left-to-right, non-overlapping,
greedy removal of every `__<digits><letters/underscores>` occurrence.  The
fuel argument (the input length) only drives termination; each step consumes
at least one character. -/
def stripCharsAux : Nat → List Char → List Char
  | 0, l => l
  | _ + 1, [] => []
  | fuel + 1, '_' :: '_' :: rest =>
    let ds := rest.takeWhile isDigitCh
    let rest2 := rest.dropWhile isDigitCh
    let as := rest2.takeWhile isAlphaUnd
    if ds.isEmpty || as.isEmpty then '_' :: stripCharsAux fuel ('_' :: rest)
    else stripCharsAux fuel (rest2.dropWhile isAlphaUnd)
  | fuel + 1, c :: cs => c :: stripCharsAux fuel cs

/-- `re.sub(r"__\d+[a-zA-Z_]+", "", name)` on a string. -/
def stripName (s : String) : String :=
  String.mk (stripCharsAux s.toList.length s.toList)

/-- The boxes of the current image, by value. -/
def currentBoxes (g : GuiState) : List BBox :=
  g.bboxes.map (heapGetB g.heap)

/-- `save_and_next`: pop the current image; in fixup mode move (or copy) it to
the output directory under a suffix-stripped name and register a
`SaveFileAction`; write the annotation JSON next to the destination (fixup) or
next to the source (otherwise); then advance. -/
def saveAndNext (g : GuiState) : GuiState :=
  let sourcePath := g.imagePaths.getD g.currentIndex.toNat default
  let g1 := { g with imagePaths := pyRemoveAt g.imagePaths g.currentIndex.toNat }
  match g.outputDir with
  | some od =>
    let newStem := stripName sourcePath.stem
    let destPath : FsPath := ⟨od, newStem, sourcePath.ext⟩
    let fs1 := if g.copy then fsCopy g1.fs sourcePath destPath
               else fsMove g1.fs sourcePath destPath
    let g2 := registerFileAction { g1 with fs := fs1 } (.saveFile sourcePath destPath)
    let annotData := FileData.annot (saveJsonFormat (currentBoxes g))
    let g3 := { g2 with fs := fsSet g2.fs ⟨od, newStem, "json"⟩ annotData }
    updateAfterRemoval g3
  | none =>
    let annotData := FileData.annot (saveJsonFormat (currentBoxes g))
    let jsonPath : FsPath := ⟨sourcePath.dir, sourcePath.stem, "json"⟩
    let g2 := { g1 with fs := fsSet g1.fs jsonPath annotData }
    updateAfterRemoval g2

/-- `skip_and_next`: pop the current image and register a `SkipFileAction`. -/
def skipAndNext (g : GuiState) : GuiState :=
  let sourcePath := g.imagePaths.getD g.currentIndex.toNat default
  let g1 := { g with imagePaths := pyRemoveAt g.imagePaths g.currentIndex.toNat }
  updateAfterRemoval (registerFileAction g1 (.skipFile sourcePath))

/-- The deletion marker used by soft deletion. -/
def deleteMarker : String := "_DELETE__"

/-- `handle_delete_key`: hard deletion stages the image (and metadata) in the
temporary holding directory; soft deletion renames them in place with the
deletion marker.  Either way a `DeleteFileAction` is registered. -/
def handleDeleteKey (g : GuiState) : GuiState :=
  if g.imagePaths = [] then g
  else
    let imagePath := g.imagePaths.getD g.currentIndex.toNat default
    let g1 := { g with imagePaths := pyRemoveAt g.imagePaths g.currentIndex.toNat }
    let jsonPath := withSuffixJson imagePath
    let jsonExists := (fsLookup g.fs jsonPath).isSome
    if g.reallyDelete then
      let newImagePath : FsPath := ⟨g.tempDir, imagePath.stem, imagePath.ext⟩
      let fs1 := fsMove g1.fs imagePath newImagePath
      let newJsonPath : Option FsPath :=
        if jsonExists then some ⟨g.tempDir, jsonPath.stem, "json"⟩ else none
      let fs2 := match newJsonPath with
        | some nj => fsMove fs1 jsonPath nj
        | none => fs1
      let action := UAction.deleteFile imagePath newImagePath
        (if jsonExists then some jsonPath else none) newJsonPath true
      updateAfterRemoval (registerFileAction { g1 with fs := fs2 } action)
    else
      let newImagePath : FsPath :=
        ⟨imagePath.dir, deleteMarker ++ imagePath.stem, imagePath.ext⟩
      let fs1 := fsMove g1.fs imagePath newImagePath
      let newJsonPath : Option FsPath :=
        if jsonExists then some ⟨jsonPath.dir, deleteMarker ++ jsonPath.stem, "json"⟩
        else none
      let fs2 := match newJsonPath with
        | some nj => fsMove fs1 jsonPath nj
        | none => fs1
      let action := UAction.deleteFile imagePath newImagePath
        (if jsonExists then some jsonPath else none) newJsonPath false
      updateAfterRemoval (registerFileAction { g1 with fs := fs2 } action)

/-- `config` lookup `self.key_map[key]`. -/
def assocGetStr : List (String × String) → String → Option String
  | [], _ => none
  | (k, v) :: rest, key => if k = key then some v else assocGetStr rest key

/-- `add_label(key)`: label the selected box, or else the last unlabeled box;
register an `AddLabelAction` when a box was labelled. -/
def addLabel (g : GuiState) (key : String) : GuiState :=
  if g.bboxes = [] then g
  else
    let picked : Option Nat × GuiState :=
      match g.selectedBboxIndex with
      | some i => (some (g.bboxes.getD i 0), { g with selectedBboxIndex := none })
      | none =>
        (g.bboxes.reverse.find? (fun r => (heapGetB g.heap r).label.isNone), g)
    match picked with
    | (some r, g1) =>
      let oldLabel := (heapGetB g1.heap r).label
      let newLabel := (assocGetStr g1.keyMap key).getD ""
      let g2 := { g1 with
        heap := g1.heap.set r { heapGetB g1.heap r with label := some newLabel } }
      registerBboxAction g2 (.addLabel r oldLabel)
    | (none, g1) => g1

/-- `delete_selected_bbox`: with a selection, register a
`DeleteBoundingBoxAction` and remove the box, returning `true`. -/
def deleteSelectedBbox (g : GuiState) : Bool × GuiState :=
  match g.selectedBboxIndex with
  | none => (false, g)
  | some i =>
    let r := g.bboxes.getD i 0
    let g1 := registerBboxAction g (.deleteBoundingBox r i)
    (true, { g1 with bboxes := pyRemoveAt g1.bboxes i, selectedBboxIndex := none })

/-- The box computed by `on_button_release`: corners converted back to image
coordinates, clamped to the image, normalized so the first corner is the
minimum, label `None`. -/
def dragBox (g : GuiState) (eventX eventY : ℚ) : BBox :=
  let startXOrig := (g.startX - g.imgX) / g.zoomLevel
  let startYOrig := (g.startY - g.imgY) / g.zoomLevel
  let endXOrig := (eventX - g.imgX) / g.zoomLevel
  let endYOrig := (eventY - g.imgY) / g.zoomLevel
  let startXClamped := max 0 (min startXOrig g.imageWidth)
  let startYClamped := max 0 (min startYOrig g.imageHeight)
  let endXClamped := max 0 (min endXOrig g.imageWidth)
  let endYClamped := max 0 (min endYOrig g.imageHeight)
  { x1 := min startXClamped endXClamped,
    y1 := min startYClamped endYClamped,
    x2 := max startXClamped endXClamped,
    y2 := max startYClamped endYClamped,
    label := none }

/-- `on_button_release`: finish the drag; discard zero-sized boxes, otherwise
append the computed box and register an `AddBoundingBoxAction`. -/
def onButtonRelease (g0 : GuiState) (eventX eventY : ℚ) : GuiState :=
  let bbox := dragBox g0 eventX eventY
  let g := { g0 with isDrawing := false }
  if g.imageOnCanvas = false then g
  else if bbox.x1 = bbox.x2 ∨ bbox.y1 = bbox.y2 then g
  else
    let r := g.heap.length
    registerBboxAction
      { g with heap := g.heap ++ [bbox], bboxes := g.bboxes ++ [r] }
      (.addBoundingBox r)

/-- Finalize a list of actions in order (used to describe the actions an
undo stack has evicted). -/
def finalizeList (g : GuiState) (l : List UAction) : GuiState :=
  l.foldl (fun g a => finalizeAction a g) g

/-- Lookup in the grouped annotation data (`output_data[label]`). -/
def dataFind : List (String × List Box4) → String → Option (List Box4)
  | [], _ => none
  | (k, v) :: rest, lab => if k = lab then some v else dataFind rest lab

/-- The coordinate records of the boxes carrying a given label, in box order
(what the claim says each label's group should hold). -/
def groupOf (l : List BBox) (lab : String) : List Box4 :=
  (l.filter (fun b => b.label = some lab)).map (fun b => ⟨b.x1, b.y1, b.x2, b.y2⟩)

/-- Where `save_and_next` writes the annotation file: next to the (renamed)
destination image in fixup mode, next to the source image otherwise. -/
def savedJsonPath (g : GuiState) (sourcePath : FsPath) : FsPath :=
  match g.outputDir with
  | some od => ⟨od, stripName sourcePath.stem, "json"⟩
  | none => ⟨sourcePath.dir, sourcePath.stem, "json"⟩

/-! ## Example states (used by witnesses) -/

/-- A small concrete GUI state. -/
def exState : GuiState :=
  { fs := []
    imagePaths := []
    currentIndex := 0
    currentPath := default
    heap := []
    bboxes := []
    bboxStack := []
    fileStack := []
    pending := []
    tempDir := "tmpdir"
    keyMap := [("a", "cats")]
    selectedBboxIndex := none
    reallyDelete := false
    outputDir := none
    copy := false
    isDrawing := false
    imageOnCanvas := true
    imgX := 0
    imgY := 0
    zoomLevel := 1
    startX := 1
    startY := 2
    imageWidth := 10
    imageHeight := 8
    quitFlag := false }

/-- A concrete image path. -/
def exImg : FsPath := ⟨"photos", "cat", "jpg"⟩

/-- A second concrete image path. -/
def exImg2 : FsPath := ⟨"photos", "dog", "jpg"⟩

/-- A concrete hash function for witness evaluation (every behaviour of the
code depends on the hash only through digest equality). -/
def exHash : Content → String := fun _ => ""

/-- A golden image path for the cleanup examples. -/
def exGolden : FsPath := ⟨"golden", "img", "jpg"⟩

/-- Input images `a.jpeg` and `a.jpg` sharing the metadata path `a.json`. -/
def exInA : FsPath := ⟨"in", "a", "jpeg"⟩

/-- See `exInA`. -/
def exInB : FsPath := ⟨"in", "a", "jpg"⟩

/-- The shared metadata path of `exInA` and `exInB`. -/
def exInMd : FsPath := ⟨"in", "a", "json"⟩

/-- A hard-delete action staging `tmpdir/cat.jpg`. -/
def exDel1 : UAction :=
  .deleteFile exImg ⟨"tmpdir", "cat", "jpg"⟩ none none true

/-- A hard-delete action staging `tmpdir/dog.jpg`. -/
def exDel2 : UAction :=
  .deleteFile exImg2 ⟨"tmpdir", "dog", "jpg"⟩ none none true

/-- A hard-delete action for `photos2021/cat.jpg`, staged — as
`handle_delete_key` does with `Path(temp_dir) / image_path.name` — at
`tmpdir/cat.jpg`. -/
def exDelShared1 : UAction :=
  .deleteFile ⟨"photos2021", "cat", "jpg"⟩ ⟨"tmpdir", "cat", "jpg"⟩ none none true

/-- A hard-delete action for a same-named file `photos2022/cat.jpg`, staged
at the same temp path `tmpdir/cat.jpg`. -/
def exDelShared2 : UAction :=
  .deleteFile ⟨"photos2022", "cat", "jpg"⟩ ⟨"tmpdir", "cat", "jpg"⟩ none none true

/-- File contents for the duplicate-metadata cleanup example. -/
def exCFs : CFs := [(exGolden, [1]), (exInA, [1]), (exInB, [1]), (exInMd, [])]

/-- File contents for the missing-metadata cleanup example: the input image
duplicates the golden image byte for byte but has no `.json` sibling. -/
def exCFsNoMd : CFs := [(exGolden, [1]), (⟨"in", "a", "jpg"⟩, [1])]

/-! # Theorems -/

/-! ## Generic fold and filesystem lemmas -/

theorem foldl_pres {σ β γ : Type _} (proj : σ → γ) (f : σ → β → σ)
    (h : ∀ s b, proj (f s b) = proj s) :
    ∀ (l : List β) (s : σ), proj (l.foldl f s) = proj s := by
  intro l
  induction l with
  | nil => intro s; rfl
  | cons b rest ih => intro s; rw [List.foldl_cons, ih, h]

theorem fsLookup_fsErase {α : Type} (fs : List (FsPath × α)) (p q : FsPath) :
    fsLookup (fsErase fs p) q = if p = q then none else fsLookup fs q := by
  induction fs with
  | nil => simp [fsErase, fsLookup]
  | cons e rest ih =>
    by_cases h1 : e.1 = p
    · have hdrop : fsErase (e :: rest) p = fsErase rest p := by
        simp [fsErase, List.filter_cons, h1]
      rw [hdrop, ih]
      by_cases h2 : p = q
      · simp [h2]
      · have h3 : ¬e.1 = q := fun hh => h2 (h1 ▸ hh)
        simp [h2, fsLookup, h3]
    · have hkeep : fsErase (e :: rest) p = e :: fsErase rest p := by
        simp [fsErase, List.filter_cons, h1]
      rw [hkeep]
      by_cases h2 : e.1 = q
      · have h3 : ¬p = q := fun hh => h1 (h2 ▸ hh.symm ▸ rfl)
        simp [fsLookup, h2, h3]
      · simp [fsLookup, h2, ih]

theorem fsLookup_fsSet {α : Type} (fs : List (FsPath × α)) (p q : FsPath) (d : α) :
    fsLookup (fsSet fs p d) q = if p = q then some d else fsLookup fs q := by
  by_cases h : p = q <;> simp [fsSet, fsLookup, h, fsLookup_fsErase]

theorem fsLookup_fsMove_dest {α : Type} (fs : List (FsPath × α)) (src dest : FsPath)
    (hsome : (fsLookup fs src).isSome) :
    fsLookup (fsMove fs src dest) dest = fsLookup fs src := by
  cases h : fsLookup fs src with
  | none => rw [h] at hsome; simp at hsome
  | some d => simp [fsMove, h, fsLookup_fsSet]

theorem fsLookup_fsMove_src {α : Type} (fs : List (FsPath × α)) (src dest : FsPath)
    (hne : src ≠ dest) :
    fsLookup (fsMove fs src dest) src = none := by
  cases h : fsLookup fs src with
  | none => simp [fsMove, h]
  | some d => simp [fsMove, h, fsLookup_fsSet, fsLookup_fsErase, hne, Ne.symm hne]

theorem fsLookup_fsMove_other {α : Type} (fs : List (FsPath × α)) (src dest q : FsPath)
    (h1 : q ≠ src) (h2 : q ≠ dest) :
    fsLookup (fsMove fs src dest) q = fsLookup fs q := by
  cases h : fsLookup fs src with
  | none => simp [fsMove, h]
  | some d =>
    simp [fsMove, h, fsLookup_fsSet, fsLookup_fsErase, Ne.symm h1, Ne.symm h2]

/-! ## Frame lemmas for the GUI operations -/

theorem finalizeAction_eq (a : UAction) (g : GuiState) :
    finalizeAction a g = { g with pending := insertAll g.pending (stagedPaths a) } := by
  cases a with
  | deleteFile op rp oj rj hard =>
    cases hard with
    | false => rfl
    | true => cases rj <;> rfl
  | addBoundingBox r => rfl
  | deleteBoundingBox r i => rfl
  | addLabel r o => rfl
  | saveFile s d => rfl
  | skipFile s => rfl

theorem loadJsonMetadata_fs (data : List (String × List Box4)) (g : GuiState) :
    (loadJsonMetadata g data).fs = g.fs := by
  unfold loadJsonMetadata
  apply foldl_pres
  intro g e
  apply foldl_pres
  intro g b
  rfl

theorem loadJsonMetadata_imagePaths (data : List (String × List Box4)) (g : GuiState) :
    (loadJsonMetadata g data).imagePaths = g.imagePaths := by
  unfold loadJsonMetadata
  apply foldl_pres
  intro g e
  apply foldl_pres
  intro g b
  rfl

theorem loadJsonMetadata_currentIndex (data : List (String × List Box4)) (g : GuiState) :
    (loadJsonMetadata g data).currentIndex = g.currentIndex := by
  unfold loadJsonMetadata
  apply foldl_pres
  intro g e
  apply foldl_pres
  intro g b
  rfl

theorem loadJsonMetadata_fileStack (data : List (String × List Box4)) (g : GuiState) :
    (loadJsonMetadata g data).fileStack = g.fileStack := by
  unfold loadJsonMetadata
  apply foldl_pres
  intro g e
  apply foldl_pres
  intro g b
  rfl

theorem loadJsonMetadata_pending (data : List (String × List Box4)) (g : GuiState) :
    (loadJsonMetadata g data).pending = g.pending := by
  unfold loadJsonMetadata
  apply foldl_pres
  intro g e
  apply foldl_pres
  intro g b
  rfl

theorem loadJsonMetadata_bboxStack (data : List (String × List Box4)) (g : GuiState) :
    (loadJsonMetadata g data).bboxStack = g.bboxStack := by
  unfold loadJsonMetadata
  apply foldl_pres
  intro g e
  apply foldl_pres
  intro g b
  rfl

theorem displayImage_fs (g : GuiState) : (displayImage g).fs = g.fs := by
  unfold displayImage
  by_cases h : g.imagePaths = []
  · simp [h]
  · simp only [h, if_false, ite_false]
    split <;> simp [loadJsonMetadata_fs]

theorem displayImage_imagePaths (g : GuiState) :
    (displayImage g).imagePaths = g.imagePaths := by
  unfold displayImage
  by_cases h : g.imagePaths = []
  · simp [h]
  · simp only [h, if_false, ite_false]
    split <;> simp [loadJsonMetadata_imagePaths]

theorem displayImage_currentIndex (g : GuiState) :
    (displayImage g).currentIndex = g.currentIndex := by
  unfold displayImage
  by_cases h : g.imagePaths = []
  · simp [h]
  · simp only [h, if_false, ite_false]
    split <;> simp [loadJsonMetadata_currentIndex]

theorem displayImage_fileStack (g : GuiState) :
    (displayImage g).fileStack = g.fileStack := by
  unfold displayImage
  by_cases h : g.imagePaths = []
  · simp [h]
  · simp only [h, if_false, ite_false]
    split <;> simp [loadJsonMetadata_fileStack]

theorem displayImage_pending (g : GuiState) :
    (displayImage g).pending = g.pending := by
  unfold displayImage
  by_cases h : g.imagePaths = []
  · simp [h]
  · simp only [h, if_false, ite_false]
    split <;> simp [loadJsonMetadata_pending]

theorem displayImage_bboxStack (g : GuiState) :
    (displayImage g).bboxStack = [] := by
  unfold displayImage
  by_cases h : g.imagePaths = []
  · simp [h]
  · simp only [h, if_false, ite_false]
    split <;> simp [loadJsonMetadata_bboxStack]

theorem updateAfterRemoval_fs (g : GuiState) :
    (updateAfterRemoval g).fs = g.fs := by
  unfold updateAfterRemoval
  split <;> simp [displayImage_fs]

theorem updateAfterRemoval_imagePaths (g : GuiState) :
    (updateAfterRemoval g).imagePaths = g.imagePaths := by
  unfold updateAfterRemoval
  split <;> simp [displayImage_imagePaths]

theorem updateAfterRemoval_fileStack (g : GuiState) :
    (updateAfterRemoval g).fileStack = g.fileStack := by
  unfold updateAfterRemoval
  split <;> simp [displayImage_fileStack]

theorem updateAfterRemoval_pending (g : GuiState) :
    (updateAfterRemoval g).pending = g.pending := by
  unfold updateAfterRemoval
  split <;> simp [displayImage_pending]

theorem updateAfterRemoval_bboxStack (g : GuiState) :
    (updateAfterRemoval g).bboxStack = [] := by
  unfold updateAfterRemoval
  split <;> simp [displayImage_bboxStack]

theorem registerFileAction_fs (g : GuiState) (a : UAction) :
    (registerFileAction g a).fs = g.fs := by
  unfold registerFileAction registerAction
  split <;> simp [finalizeAction_eq]

theorem registerFileAction_imagePaths (g : GuiState) (a : UAction) :
    (registerFileAction g a).imagePaths = g.imagePaths := by
  unfold registerFileAction registerAction
  split <;> simp [finalizeAction_eq]

theorem registerFileAction_currentIndex (g : GuiState) (a : UAction) :
    (registerFileAction g a).currentIndex = g.currentIndex := by
  unfold registerFileAction registerAction
  split <;> simp [finalizeAction_eq]

theorem registerFileAction_bboxStack (g : GuiState) (a : UAction) :
    (registerFileAction g a).bboxStack = g.bboxStack := by
  unfold registerFileAction registerAction
  split <;> simp [finalizeAction_eq]

theorem registerFileAction_fileStack (g : GuiState) (a : UAction) :
    (registerFileAction g a).fileStack =
      if g.fileStack.length = maxUndo then g.fileStack.tail ++ [a]
      else g.fileStack ++ [a] := by
  unfold registerFileAction registerAction
  split <;> rename_i h <;> simp at h <;> simp [h, finalizeAction_eq]

theorem registerFileAction_pending (g : GuiState) (a : UAction)
    (h : g.fileStack.length < maxUndo) :
    (registerFileAction g a).pending = g.pending := by
  unfold registerFileAction registerAction
  split
  · rename_i hh; simp at hh; omega
  · rfl

theorem registerBboxAction_fs (g : GuiState) (a : UAction) :
    (registerBboxAction g a).fs = g.fs := by
  unfold registerBboxAction registerAction
  split <;> simp [finalizeAction_eq]

theorem registerBboxAction_fileStack (g : GuiState) (a : UAction) :
    (registerBboxAction g a).fileStack = g.fileStack := by
  unfold registerBboxAction registerAction
  split <;> simp [finalizeAction_eq]

theorem registerBboxAction_imagePaths (g : GuiState) (a : UAction) :
    (registerBboxAction g a).imagePaths = g.imagePaths := by
  unfold registerBboxAction registerAction
  split <;> simp [finalizeAction_eq]

theorem applyUndo_fileStack (a : UAction) (g : GuiState) :
    (applyUndo a g).fileStack = g.fileStack := by
  cases a <;> simp [applyUndo, displayImage_fileStack]

theorem applyUndo_bboxStack_empty (a : UAction) (g : GuiState)
    (h : g.bboxStack = []) : (applyUndo a g).bboxStack = [] := by
  cases a <;> simp [applyUndo, displayImage_bboxStack, h]

/-! ## Claim C2 -/

/-- C2: `UndoManager.undo` on a non-empty stack removes exactly the most
recently registered action (the top of the stack) and invokes that action's
inverse (`applyUndo`); on an empty stack it performs no state change and no
error is raised (for both the file and the bounding-box undo managers). -/
theorem c2_undo_pops_most_recent (g : GuiState) :
    (g.fileStack = [] → fileUndo g = g) ∧
    (g.bboxStack = [] → bboxUndo g = g) ∧
    (∀ s a, g.fileStack = s ++ [a] →
      fileUndo g = applyUndo a { g with fileStack := s }) ∧
    (∀ s a, g.bboxStack = s ++ [a] →
      bboxUndo g = applyUndo a { g with bboxStack := s }) := by
  refine ⟨?_, ?_, ?_, ?_⟩
  · intro h; simp [fileUndo, h]
  · intro h; simp [bboxUndo, h]
  · intro s a h; simp [fileUndo, h, List.getLast?_concat, List.dropLast_concat]
  · intro s a h; simp [bboxUndo, h, List.getLast?_concat, List.dropLast_concat]

/-- Witness for C2 at concrete states: undo on an empty stack is the
identity, and undo after one registered action inverts that action. -/
theorem c2_undo_pops_most_recent_witness :
    fileUndo exState = exState ∧
    fileUndo { exState with fileStack := [UAction.skipFile exImg] } =
      applyUndo (UAction.skipFile exImg) { exState with fileStack := [] } := by
  constructor
  · exact (c2_undo_pops_most_recent exState).1 rfl
  · exact (c2_undo_pops_most_recent
      { exState with fileStack := [UAction.skipFile exImg] }).2.2.1
      [] (UAction.skipFile exImg) rfl

/-! ## Claim C10 -/

/-- C10: after every navigation step and after every removal-update, whenever
the image queue is non-empty the current index is in bounds: `navigate` wraps
the index modulo the queue length, and `_update_after_removal` clamps it to
the last valid index. -/
theorem c10_current_index_in_bounds (g : GuiState) (delta : Int) :
    (g.imagePaths ≠ [] →
      0 ≤ (navigate g delta).currentIndex ∧
      (navigate g delta).currentIndex <
        ((navigate g delta).imagePaths.length : Int)) ∧
    (0 ≤ g.currentIndex → (updateAfterRemoval g).imagePaths ≠ [] →
      0 ≤ (updateAfterRemoval g).currentIndex ∧
      (updateAfterRemoval g).currentIndex <
        ((updateAfterRemoval g).imagePaths.length : Int)) := by
  constructor
  · intro h
    have hlen : 0 < (g.imagePaths.length : Int) := by
      exact_mod_cast List.length_pos.mpr h
    unfold navigate
    simp only [h, if_false, ite_false, displayImage_currentIndex,
      displayImage_imagePaths]
    exact ⟨Int.emod_nonneg _ (ne_of_gt hlen), Int.emod_lt_of_pos _ hlen⟩
  · intro h0 hne
    rw [updateAfterRemoval_imagePaths] at hne
    have hlen : 0 < (g.imagePaths.length : Int) := by
      exact_mod_cast List.length_pos.mpr hne
    unfold updateAfterRemoval
    simp only [displayImage_currentIndex, displayImage_imagePaths]
    split
    · constructor <;> (simp; try omega)
    · rename_i hc
      push_neg at hc
      have := hc hne
      exact ⟨h0, by omega⟩

/-- Witness for C10 at a concrete two-image state. -/
theorem c10_current_index_in_bounds_witness :
    (0 ≤ (navigate { exState with imagePaths := [exImg, exImg2] } 1).currentIndex ∧
      (navigate { exState with imagePaths := [exImg, exImg2] } 1).currentIndex <
        ((navigate { exState with imagePaths := [exImg, exImg2] } 1).imagePaths.length : Int)) ∧
    (0 ≤ (updateAfterRemoval { exState with imagePaths := [exImg, exImg2], currentIndex := 2 }).currentIndex ∧
      (updateAfterRemoval { exState with imagePaths := [exImg, exImg2], currentIndex := 2 }).currentIndex <
        ((updateAfterRemoval { exState with imagePaths := [exImg, exImg2], currentIndex := 2 }).imagePaths.length : Int)) := by
  constructor
  · exact (c10_current_index_in_bounds
      { exState with imagePaths := [exImg, exImg2] } 1).1 (by decide)
  · exact (c10_current_index_in_bounds
      { exState with imagePaths := [exImg, exImg2], currentIndex := 2 } 0).2
      (by decide) (by rw [updateAfterRemoval_imagePaths]; decide)

/-! ## Claim C8 -/

/-- C8: every bounding box appended by a completed mouse drag has clamped,
normalized coordinates `0 ≤ x1 ≤ x2 ≤ image_width`, `0 ≤ y1 ≤ y2 ≤
image_height` and label `None`; zero-width or zero-height boxes are discarded
and register no undo action. -/
theorem c8_released_box_invariants (g : GuiState) (eventX eventY : ℚ)
    (hc : g.imageOnCanvas = true)
    (hW : 0 ≤ g.imageWidth) (hH : 0 ≤ g.imageHeight) :
    onButtonRelease g eventX eventY = { g with isDrawing := false } ∨
    (onButtonRelease g eventX eventY =
        registerBboxAction
          { g with isDrawing := false,
                   heap := g.heap ++ [dragBox g eventX eventY],
                   bboxes := g.bboxes ++ [g.heap.length] }
          (.addBoundingBox g.heap.length) ∧
      (dragBox g eventX eventY).label = none ∧
      0 ≤ (dragBox g eventX eventY).x1 ∧
      (dragBox g eventX eventY).x1 ≤ (dragBox g eventX eventY).x2 ∧
      (dragBox g eventX eventY).x2 ≤ g.imageWidth ∧
      0 ≤ (dragBox g eventX eventY).y1 ∧
      (dragBox g eventX eventY).y1 ≤ (dragBox g eventX eventY).y2 ∧
      (dragBox g eventX eventY).y2 ≤ g.imageHeight ∧
      (dragBox g eventX eventY).x1 ≠ (dragBox g eventX eventY).x2 ∧
      (dragBox g eventX eventY).y1 ≠ (dragBox g eventX eventY).y2) := by
  by_cases hdeg : (dragBox g eventX eventY).x1 = (dragBox g eventX eventY).x2 ∨
      (dragBox g eventX eventY).y1 = (dragBox g eventX eventY).y2
  · left
    unfold onButtonRelease
    simp [hc, hdeg]
  · right
    have h1 : (dragBox g eventX eventY).x1 ≠ (dragBox g eventX eventY).x2 :=
      fun h => hdeg (Or.inl h)
    have h2 : (dragBox g eventX eventY).y1 ≠ (dragBox g eventX eventY).y2 :=
      fun h => hdeg (Or.inr h)
    refine ⟨?_, rfl, ?_, ?_, ?_, ?_, ?_, ?_, h1, h2⟩
    · unfold onButtonRelease
      simp [hc, hdeg]
    · exact le_min (le_max_left 0 _) (le_max_left 0 _)
    · exact (min_le_left _ _).trans (le_max_left _ _)
    · exact max_le (max_le hW (min_le_right _ _)) (max_le hW (min_le_right _ _))
    · exact le_min (le_max_left 0 _) (le_max_left 0 _)
    · exact (min_le_left _ _).trans (le_max_left _ _)
    · exact max_le (max_le hH (min_le_right _ _)) (max_le hH (min_le_right _ _))

/-- Witness for C8: a drag from (1,2) to (5,6) over a 10×8 image appends the
box (1,2,5,6). -/
theorem c8_released_box_invariants_witness :
    onButtonRelease exState 5 6 = { exState with isDrawing := false } ∨
    (onButtonRelease exState 5 6 =
        registerBboxAction
          { exState with isDrawing := false,
                         heap := exState.heap ++ [dragBox exState 5 6],
                         bboxes := exState.bboxes ++ [exState.heap.length] }
          (.addBoundingBox exState.heap.length) ∧
      (dragBox exState 5 6).label = none ∧
      0 ≤ (dragBox exState 5 6).x1 ∧
      (dragBox exState 5 6).x1 ≤ (dragBox exState 5 6).x2 ∧
      (dragBox exState 5 6).x2 ≤ exState.imageWidth ∧
      0 ≤ (dragBox exState 5 6).y1 ∧
      (dragBox exState 5 6).y1 ≤ (dragBox exState 5 6).y2 ∧
      (dragBox exState 5 6).y2 ≤ exState.imageHeight ∧
      (dragBox exState 5 6).x1 ≠ (dragBox exState 5 6).x2 ∧
      (dragBox exState 5 6).y1 ≠ (dragBox exState 5 6).y2) :=
  c8_released_box_invariants exState 5 6 (by decide) (by decide) (by decide)

/-! ## Claim C7 -/

theorem addLabel_fileStack (g : GuiState) (key : String) :
    (addLabel g key).fileStack = g.fileStack := by
  unfold addLabel
  by_cases h : g.bboxes = []
  · simp [h]
  · simp only [h, if_false, ite_false]
    cases hs : g.selectedBboxIndex with
    | none =>
      simp only [hs]
      cases hf : g.bboxes.reverse.find? (fun r => (heapGetB g.heap r).label.isNone) with
      | none => simp [hf]
      | some r => simp [hf, registerBboxAction_fileStack]
    | some i => simp [registerBboxAction_fileStack]

theorem deleteSelectedBbox_fileStack (g : GuiState) :
    (deleteSelectedBbox g).2.fileStack = g.fileStack := by
  unfold deleteSelectedBbox
  cases hs : g.selectedBboxIndex with
  | none => rfl
  | some i => simp [registerBboxAction_fileStack]

theorem onButtonRelease_fileStack (g : GuiState) (eventX eventY : ℚ) :
    (onButtonRelease g eventX eventY).fileStack = g.fileStack := by
  simp only [onButtonRelease]
  split
  · rfl
  · split
    · rfl
    · simp [registerBboxAction_fileStack]

theorem bboxUndo_fileStack (g : GuiState) :
    (bboxUndo g).fileStack = g.fileStack := by
  unfold bboxUndo
  cases h : g.bboxStack.getLast? with
  | none => rfl
  | some a => simp [applyUndo_fileStack]

theorem fileUndo_bboxStack_empty (g : GuiState) (h : g.bboxStack = []) :
    (fileUndo g).bboxStack = [] := by
  unfold fileUndo
  cases hl : g.fileStack.getLast? with
  | none => exact h
  | some a => exact applyUndo_bboxStack_empty a _ h

theorem skipAndNext_bboxStack (g : GuiState) :
    (skipAndNext g).bboxStack = [] := by
  unfold skipAndNext
  exact updateAfterRemoval_bboxStack _

theorem saveAndNext_bboxStack (g : GuiState) :
    (saveAndNext g).bboxStack = [] := by
  unfold saveAndNext
  cases g.outputDir <;> simp [updateAfterRemoval_bboxStack]

theorem handleDeleteKey_bboxStack (g : GuiState) (hne : g.imagePaths ≠ []) :
    (handleDeleteKey g).bboxStack = [] := by
  unfold handleDeleteKey
  simp only [hne, if_false, ite_false]
  split <;> (split <;> simp [updateAfterRemoval_bboxStack])

theorem skipAndNext_fileStack (g : GuiState) :
    (skipAndNext g).fileStack =
      (registerAction maxUndo (g, g.fileStack)
        (.skipFile (g.imagePaths.getD g.currentIndex.toNat default))).2 := by
  unfold skipAndNext
  rw [updateAfterRemoval_fileStack]
  rw [registerFileAction_fileStack]
  unfold registerAction
  split <;> rename_i h <;> simp at h <;> simp [h]

/-- C7: annotation-level operations (add box, delete box, add/change label)
register actions only on the bounding-box undo stack, and file-level
operations only on the file undo stack; registering or undoing an action on
one stack leaves the other stack's contents unchanged (along the reachable
Backspace flow, the file-stack undo runs only with an empty bounding-box
stack, which stays empty). -/
theorem c7_two_independent_stacks (g : GuiState) (key : String) (a : UAction)
    (eventX eventY : ℚ) :
    (addLabel g key).fileStack = g.fileStack ∧
    (deleteSelectedBbox g).2.fileStack = g.fileStack ∧
    (onButtonRelease g eventX eventY).fileStack = g.fileStack ∧
    (registerBboxAction g a).fileStack = g.fileStack ∧
    (registerFileAction g a).bboxStack = g.bboxStack ∧
    (bboxUndo g).fileStack = g.fileStack ∧
    (g.bboxStack ≠ [] → (handleBackspace g).fileStack = g.fileStack) ∧
    (g.bboxStack = [] → (handleBackspace g).bboxStack = []) ∧
    (skipAndNext g).bboxStack = [] ∧
    (saveAndNext g).bboxStack = [] ∧
    (g.imagePaths ≠ [] → (handleDeleteKey g).bboxStack = []) ∧
    (skipAndNext g).fileStack =
      (registerAction maxUndo (g, g.fileStack)
        (.skipFile (g.imagePaths.getD g.currentIndex.toNat default))).2 := by
  refine ⟨addLabel_fileStack g key, deleteSelectedBbox_fileStack g,
    onButtonRelease_fileStack g eventX eventY, registerBboxAction_fileStack g a,
    registerFileAction_bboxStack g a, bboxUndo_fileStack g, ?_, ?_,
    skipAndNext_bboxStack g, saveAndNext_bboxStack g,
    handleDeleteKey_bboxStack g, skipAndNext_fileStack g⟩
  · intro h
    unfold handleBackspace
    by_cases hd : g.isDrawing
    · simp [hd]
    · simp [hd, List.isEmpty_iff, h, bboxUndo_fileStack]
  · intro h
    unfold handleBackspace
    by_cases hd : g.isDrawing
    · simp [hd, h]
    · simp [hd, List.isEmpty_iff, h, fileUndo_bboxStack_empty g h]

/-- Witness for C7 at a concrete state. -/
theorem c7_two_independent_stacks_witness :
    (addLabel exState "a").fileStack = exState.fileStack ∧
    (handleBackspace exState).bboxStack = [] :=
  ⟨(c7_two_independent_stacks exState "a" (.skipFile exImg) 0 0).1,
   (c7_two_independent_stacks exState "a" (.skipFile exImg) 0 0).2.2.2.2.2.2.2.1 rfl⟩

/-! ## Claim C4 -/

theorem deleteMarker_ne (s : String) : deleteMarker ++ s ≠ s := by
  intro h
  have hlen := congrArg String.length h
  rw [String.length_append] at hlen
  have h9 : deleteMarker.length = 9 := rfl
  omega

theorem handleDeleteKey_fs_soft (g : GuiState) (p : FsPath)
    (hrd : g.reallyDelete = false) (hne : g.imagePaths ≠ [])
    (hp : p = g.imagePaths.getD g.currentIndex.toNat default) :
    (handleDeleteKey g).fs =
      if (fsLookup g.fs (withSuffixJson p)).isSome then
        fsMove (fsMove g.fs p ⟨p.dir, deleteMarker ++ p.stem, p.ext⟩)
          (withSuffixJson p) ⟨p.dir, deleteMarker ++ p.stem, "json"⟩
      else fsMove g.fs p ⟨p.dir, deleteMarker ++ p.stem, p.ext⟩ := by
  subst hp
  unfold handleDeleteKey
  simp only [hne, if_false, ite_false, hrd, Bool.false_eq_true,
    updateAfterRemoval_fs, registerFileAction_fs]
  by_cases hj : (fsLookup g.fs
      (withSuffixJson (g.imagePaths.getD g.currentIndex.toNat default))).isSome = true
  · rw [if_pos hj, if_pos hj]; rfl
  · rw [if_neg hj, if_neg hj]

/-- C4: when `really_delete` is false, pressing Delete renames the current
image (and its sibling `.json` file, when one exists) by prepending the
deletion marker `_DELETE__` to its name in the same directory, and removes no
file: the contents survive under the marked names and every other path is
untouched. -/
theorem c4_soft_delete_renames (g : GuiState) (p : FsPath)
    (hrd : g.reallyDelete = false)
    (hne : g.imagePaths ≠ [])
    (hp : p = g.imagePaths.getD g.currentIndex.toNat default)
    (hpe : (fsLookup g.fs p).isSome)
    (hext : p.ext ≠ "json")
    (hf1 : fsLookup g.fs ⟨p.dir, deleteMarker ++ p.stem, p.ext⟩ = none)
    (hf2 : fsLookup g.fs ⟨p.dir, deleteMarker ++ p.stem, "json"⟩ = none) :
    fsLookup (handleDeleteKey g).fs ⟨p.dir, deleteMarker ++ p.stem, p.ext⟩ =
      fsLookup g.fs p ∧
    fsLookup (handleDeleteKey g).fs p = none ∧
    ((fsLookup g.fs (withSuffixJson p)).isSome →
      fsLookup (handleDeleteKey g).fs ⟨p.dir, deleteMarker ++ p.stem, "json"⟩ =
        fsLookup g.fs (withSuffixJson p) ∧
      fsLookup (handleDeleteKey g).fs (withSuffixJson p) = none) ∧
    (∀ q : FsPath, q ≠ p → q ≠ ⟨p.dir, deleteMarker ++ p.stem, p.ext⟩ →
      q ≠ withSuffixJson p → q ≠ ⟨p.dir, deleteMarker ++ p.stem, "json"⟩ →
      fsLookup (handleDeleteKey g).fs q = fsLookup g.fs q) := by
  have hfs := handleDeleteKey_fs_soft g p hrd hne hp
  set sp : FsPath := ⟨p.dir, deleteMarker ++ p.stem, p.ext⟩ with hsp
  set sj : FsPath := ⟨p.dir, deleteMarker ++ p.stem, "json"⟩ with hsj
  have hjp_ext : (withSuffixJson p).ext = "json" := rfl
  have hne_p_sp : p ≠ sp := by
    intro h; exact deleteMarker_ne p.stem (congrArg FsPath.stem h).symm
  have hne_jp_p : withSuffixJson p ≠ p := by
    intro h; exact hext ((congrArg FsPath.ext h).symm ▸ rfl)
  have hne_jp_sp : withSuffixJson p ≠ sp := by
    intro h
    have := congrArg FsPath.ext h
    rw [hjp_ext] at this
    exact hext this.symm
  have hne_jp_sj : withSuffixJson p ≠ sj := by
    intro h; exact deleteMarker_ne p.stem (congrArg FsPath.stem h).symm
  have hne_p_sj : p ≠ sj := by
    intro h; exact hext (congrArg FsPath.ext h)
  have hne_sp_sj : sp ≠ sj := by
    intro h; exact hext (congrArg FsPath.ext h)
  by_cases hj : (fsLookup g.fs (withSuffixJson p)).isSome
  · rw [if_pos hj] at hfs
    have hfs1jp : fsLookup (fsMove g.fs p sp) (withSuffixJson p) =
        fsLookup g.fs (withSuffixJson p) :=
      fsLookup_fsMove_other _ _ _ _ hne_jp_p hne_jp_sp
    refine ⟨?_, ?_, fun _ => ⟨?_, ?_⟩, ?_⟩
    · rw [hfs, fsLookup_fsMove_other _ _ _ _ (Ne.symm hne_jp_sp) hne_sp_sj,
        fsLookup_fsMove_dest _ _ _ hpe]
    · rw [hfs, fsLookup_fsMove_other _ _ _ _ (Ne.symm hne_jp_p) hne_p_sj,
        fsLookup_fsMove_src _ _ _ hne_p_sp]
    · rw [hfs, fsLookup_fsMove_dest, hfs1jp]
      rw [hfs1jp]; exact hj
    · rw [hfs, fsLookup_fsMove_src _ _ _ hne_jp_sj]
    · intro q hq1 hq2 hq3 hq4
      rw [hfs, fsLookup_fsMove_other _ _ _ _ hq3 hq4,
        fsLookup_fsMove_other _ _ _ _ hq1 hq2]
  · rw [if_neg hj] at hfs
    refine ⟨?_, ?_, fun hj2 => absurd hj2 hj, ?_⟩
    · rw [hfs, fsLookup_fsMove_dest _ _ _ hpe]
    · rw [hfs, fsLookup_fsMove_src _ _ _ hne_p_sp]
    · intro q hq1 hq2 hq3 hq4
      rw [hfs, fsLookup_fsMove_other _ _ _ _ hq1 hq2]

/-- Witness for C4: soft-deleting `photos/cat.jpg` (with metadata) leaves its
bytes at `photos/_DELETE__cat.jpg`. -/
theorem c4_soft_delete_renames_witness :
    fsLookup
      (handleDeleteKey
        { exState with imagePaths := [exImg],
                       fs := [(exImg, FileData.raw 7),
                              (withSuffixJson exImg, FileData.annot [])] }).fs
      ⟨exImg.dir, deleteMarker ++ exImg.stem, exImg.ext⟩ =
      fsLookup
        [(exImg, FileData.raw 7), (withSuffixJson exImg, FileData.annot [])]
        exImg :=
  (c4_soft_delete_renames
    { exState with imagePaths := [exImg],
                   fs := [(exImg, FileData.raw 7),
                          (withSuffixJson exImg, FileData.annot [])] }
    exImg rfl (by decide) rfl (by decide) (by decide) (by decide) (by decide)).1

/-! ## Claim C5 -/

theorem fsLookup_eraseFold {α : Type} (l : List FsPath)
    (fs : List (FsPath × α)) (q : FsPath) :
    fsLookup (l.foldl (fun fs p => fsErase fs p) fs) q =
      if q ∈ l then none else fsLookup fs q := by
  induction l generalizing fs with
  | nil => simp
  | cons p rest ih =>
    rw [List.foldl_cons, ih, fsLookup_fsErase]
    by_cases h1 : q ∈ rest
    · simp [h1]
    · by_cases h2 : p = q
      · simp [h1, h2]
      · have h3 : ¬q ∈ p :: rest := by
          simp only [List.mem_cons]
          push_neg
          exact ⟨fun hh => h2 hh.symm, h1⟩
        simp [h1, h2, h3]

theorem fsLookup_filter_dir {α : Type} (fs : List (FsPath × α)) (t : String)
    (q : FsPath) :
    fsLookup (fs.filter (fun e => e.1.dir ≠ t)) q =
      if q.dir = t then none else fsLookup fs q := by
  induction fs with
  | nil => simp [fsLookup]
  | cons e rest ih =>
    by_cases h1 : e.1.dir = t
    · have hdrop : (e :: rest).filter (fun e => e.1.dir ≠ t) =
          rest.filter (fun e => e.1.dir ≠ t) := by
        simp [List.filter_cons, h1]
      rw [hdrop, ih]
      by_cases h2 : q.dir = t
      · simp [h2]
      · have h3 : ¬e.1 = q := fun hh => h2 (hh ▸ h1)
        simp [fsLookup, h3, h2]
    · have hkeep : (e :: rest).filter (fun e => e.1.dir ≠ t) =
          e :: rest.filter (fun e => e.1.dir ≠ t) := by
        simp [List.filter_cons, h1]
      rw [hkeep]
      by_cases h2 : e.1 = q
      · have h3 : ¬q.dir = t := fun hh => h1 (h2 ▸ hh)
        simp [fsLookup, h2, h3]
      · have hcons : fsLookup (e :: rest.filter (fun e => e.1.dir ≠ t)) q =
            fsLookup (rest.filter (fun e => e.1.dir ≠ t)) q := by
          simp [fsLookup, h2]
        rw [hcons, ih]
        by_cases h3 : q.dir = t
        · simp [h3]
        · simp [h3, fsLookup, h2]

theorem pendingClear_lookup (g : GuiState) (q : FsPath) :
    fsLookup (pendingClear g).fs q =
      if q ∈ g.pending ∨ q.dir = g.tempDir then none else fsLookup g.fs q := by
  simp only [pendingClear]
  rw [fsLookup_filter_dir, fsLookup_eraseFold]
  by_cases h1 : q.dir = g.tempDir
  · simp [h1]
  · by_cases h2 : q ∈ g.pending
    · simp [h1, h2]
    · simp [h1, h2]

theorem handleDeleteKey_fs_hard (g : GuiState) (p : FsPath)
    (hrd : g.reallyDelete = true) (hne : g.imagePaths ≠ [])
    (hp : p = g.imagePaths.getD g.currentIndex.toNat default) :
    (handleDeleteKey g).fs =
      if (fsLookup g.fs (withSuffixJson p)).isSome then
        fsMove (fsMove g.fs p ⟨g.tempDir, p.stem, p.ext⟩)
          (withSuffixJson p) ⟨g.tempDir, p.stem, "json"⟩
      else fsMove g.fs p ⟨g.tempDir, p.stem, p.ext⟩ := by
  subst hp
  unfold handleDeleteKey
  simp only [hne, if_false, ite_false, hrd, if_true, ite_true,
    updateAfterRemoval_fs, registerFileAction_fs]
  by_cases hj : (fsLookup g.fs
      (withSuffixJson (g.imagePaths.getD g.currentIndex.toNat default))).isSome = true
  · rw [if_pos hj, if_pos hj]; rfl
  · rw [if_neg hj, if_neg hj]

theorem handleDeleteKey_pending (g : GuiState)
    (hstack : g.fileStack.length < maxUndo) :
    (handleDeleteKey g).pending = g.pending := by
  unfold handleDeleteKey
  by_cases hne : g.imagePaths = []
  · simp [hne]
  · simp only [hne, if_false, ite_false]
    split
    · split <;>
        (rw [updateAfterRemoval_pending, registerFileAction_pending]; simp [hstack])
    · split <;>
        (rw [updateAfterRemoval_pending, registerFileAction_pending]; simp [hstack])

/-- C5: when `really_delete` is true, pressing Delete moves the current image
(and its sibling `.json` file, when present) into the temporary holding
directory rather than unlinking it — the contents survive at the staged
paths, every other path is untouched, and the pending-deletions set does not
change; the staged files are permanently unlinked only by
`PendingDeletions.clear`, which empties exactly the pending set and the
holding directory. -/
theorem c5_hard_delete_defers (g : GuiState) (p : FsPath)
    (hrd : g.reallyDelete = true)
    (hne : g.imagePaths ≠ [])
    (hp : p = g.imagePaths.getD g.currentIndex.toNat default)
    (hpe : (fsLookup g.fs p).isSome)
    (hext : p.ext ≠ "json")
    (hdir : p.dir ≠ g.tempDir)
    (hstack : g.fileStack.length < maxUndo) :
    fsLookup (handleDeleteKey g).fs ⟨g.tempDir, p.stem, p.ext⟩ = fsLookup g.fs p ∧
    fsLookup (handleDeleteKey g).fs p = none ∧
    ((fsLookup g.fs (withSuffixJson p)).isSome →
      fsLookup (handleDeleteKey g).fs ⟨g.tempDir, p.stem, "json"⟩ =
        fsLookup g.fs (withSuffixJson p) ∧
      fsLookup (handleDeleteKey g).fs (withSuffixJson p) = none) ∧
    (∀ q : FsPath, q ≠ p → q ≠ ⟨g.tempDir, p.stem, p.ext⟩ →
      q ≠ withSuffixJson p → q ≠ ⟨g.tempDir, p.stem, "json"⟩ →
      fsLookup (handleDeleteKey g).fs q = fsLookup g.fs q) ∧
    (handleDeleteKey g).pending = g.pending ∧
    (∀ (gc : GuiState) (q : FsPath),
      fsLookup (pendingClear gc).fs q =
        if q ∈ gc.pending ∨ q.dir = gc.tempDir then none else fsLookup gc.fs q) ∧
    (∀ gc : GuiState, (pendingClear gc).pending = []) := by
  have hfs := handleDeleteKey_fs_hard g p hrd hne hp
  set tp : FsPath := ⟨g.tempDir, p.stem, p.ext⟩ with htp
  set tj : FsPath := ⟨g.tempDir, p.stem, "json"⟩ with htj
  have hne_p_tp : p ≠ tp := by
    intro h; exact hdir (congrArg FsPath.dir h)
  have hne_jp_p : withSuffixJson p ≠ p := by
    intro h; exact hext ((congrArg FsPath.ext h).symm ▸ rfl)
  have hne_jp_tp : withSuffixJson p ≠ tp := by
    intro h; exact hdir (congrArg FsPath.dir h)
  have hne_jp_tj : withSuffixJson p ≠ tj := by
    intro h; exact hdir (congrArg FsPath.dir h)
  have hne_p_tj : p ≠ tj := by
    intro h; exact hdir (congrArg FsPath.dir h)
  have hne_tp_tj : tp ≠ tj := by
    intro h; exact hext (congrArg FsPath.ext h)
  refine ⟨?_, ?_, ?_, ?_, handleDeleteKey_pending g hstack,
    pendingClear_lookup, fun gc => rfl⟩
  · by_cases hj : (fsLookup g.fs (withSuffixJson p)).isSome
    · rw [hfs, if_pos hj, fsLookup_fsMove_other _ _ _ _ (Ne.symm hne_jp_tp) hne_tp_tj,
        fsLookup_fsMove_dest _ _ _ hpe]
    · rw [hfs, if_neg hj, fsLookup_fsMove_dest _ _ _ hpe]
  · by_cases hj : (fsLookup g.fs (withSuffixJson p)).isSome
    · rw [hfs, if_pos hj, fsLookup_fsMove_other _ _ _ _ (Ne.symm hne_jp_p) hne_p_tj,
        fsLookup_fsMove_src _ _ _ hne_p_tp]
    · rw [hfs, if_neg hj, fsLookup_fsMove_src _ _ _ hne_p_tp]
  · intro hj
    have hfs1jp : fsLookup (fsMove g.fs p tp) (withSuffixJson p) =
        fsLookup g.fs (withSuffixJson p) :=
      fsLookup_fsMove_other _ _ _ _ hne_jp_p hne_jp_tp
    constructor
    · rw [hfs, if_pos hj, fsLookup_fsMove_dest, hfs1jp]
      rw [hfs1jp]; exact hj
    · rw [hfs, if_pos hj, fsLookup_fsMove_src _ _ _ hne_jp_tj]
  · intro q hq1 hq2 hq3 hq4
    by_cases hj : (fsLookup g.fs (withSuffixJson p)).isSome
    · rw [hfs, if_pos hj, fsLookup_fsMove_other _ _ _ _ hq3 hq4,
        fsLookup_fsMove_other _ _ _ _ hq1 hq2]
    · rw [hfs, if_neg hj, fsLookup_fsMove_other _ _ _ _ hq1 hq2]

/-- Witness for C5: hard-deleting `photos/cat.jpg` stages its bytes at
`tmpdir/cat.jpg` without touching the pending set. -/
theorem c5_hard_delete_defers_witness :
    fsLookup
      (handleDeleteKey
        { exState with imagePaths := [exImg], reallyDelete := true,
                       fs := [(exImg, FileData.raw 7)] }).fs
      ⟨exState.tempDir, exImg.stem, exImg.ext⟩ =
      fsLookup [(exImg, FileData.raw 7)] exImg :=
  (c5_hard_delete_defers
    { exState with imagePaths := [exImg], reallyDelete := true,
                   fs := [(exImg, FileData.raw 7)] }
    exImg rfl (by decide) rfl (by decide) (by decide) (by decide) (by decide)).1

/-! ## Claim C6 -/

theorem any_key_iff_dataFind (data : List (String × List Box4)) (lab : String) :
    data.any (fun e => e.1 = lab) = true ↔ (dataFind data lab).isSome := by
  induction data with
  | nil => simp [dataFind]
  | cons e rest ih =>
    by_cases h : e.1 = lab <;> simp [dataFind, h, ih]

theorem dataFind_mapAppend (data : List (String × List Box4))
    (lab lab2 : String) (b : Box4) :
    dataFind (data.map (fun e => if e.1 = lab then (e.1, e.2 ++ [b]) else e)) lab2 =
      if lab2 = lab then (dataFind data lab).map (fun xs => xs ++ [b])
      else dataFind data lab2 := by
  induction data with
  | nil => by_cases h : lab2 = lab <;> simp [dataFind, h]
  | cons e rest ih =>
    rw [List.map_cons]
    by_cases h1 : e.1 = lab
    · rw [if_pos h1]
      by_cases h2 : lab2 = lab
      · have h3 : e.1 = lab2 := h2 ▸ h1
        rw [if_pos h2]
        simp only [dataFind, if_pos h3, if_pos h1, Option.map_some']
      · have h3 : ¬e.1 = lab2 := fun hh => h2 (hh ▸ h1)
        rw [if_neg h2]
        simp only [dataFind, if_neg h3]
        rw [ih, if_neg h2]
    · rw [if_neg h1]
      by_cases h2 : e.1 = lab2
      · have h3 : ¬lab2 = lab := fun hh => h1 (hh ▸ h2)
        rw [if_neg h3]
        simp only [dataFind, if_pos h2]
      · simp only [dataFind, if_neg h1, if_neg h2]
        rw [ih]

theorem dataFind_appendSingle (data : List (String × List Box4))
    (lab lab2 : String) (b : Box4) :
    dataFind (data ++ [(lab, [b])]) lab2 =
      match dataFind data lab2 with
      | some xs => some xs
      | none => if lab = lab2 then some [b] else none := by
  induction data with
  | nil => simp [dataFind]
  | cons e rest ih =>
    by_cases h : e.1 = lab2
    · simp [dataFind, h]
    · simp only [List.cons_append, dataFind, h, if_false]
      exact ih

theorem dataFind_addBoxToData (data : List (String × List Box4))
    (lab lab2 : String) (b : Box4) :
    dataFind (addBoxToData data lab b) lab2 =
      if lab2 = lab then
        (match dataFind data lab with
         | some xs => some (xs ++ [b])
         | none => some [b])
      else dataFind data lab2 := by
  unfold addBoxToData
  by_cases hany : data.any (fun e => e.1 = lab) = true
  · rw [if_pos hany, dataFind_mapAppend]
    by_cases h2 : lab2 = lab
    · rw [if_pos h2, if_pos h2]
      have hsome := (any_key_iff_dataFind data lab).mp hany
      cases hfind : dataFind data lab with
      | none => rw [hfind] at hsome; simp at hsome
      | some xs => simp
    · rw [if_neg h2, if_neg h2]
  · rw [if_neg hany, dataFind_appendSingle]
    have hnone : dataFind data lab = none := by
      cases hfind : dataFind data lab with
      | none => rfl
      | some xs =>
        exact absurd ((any_key_iff_dataFind data lab).mpr (by simp [hfind])) hany
    by_cases h2 : lab2 = lab
    · subst h2
      rw [hnone]
    · have h3 : ¬lab = lab2 := fun hh => h2 hh.symm
      rw [if_neg h2]
      cases hfind : dataFind data lab2 <;> simp [h3]

theorem groupOf_cons_skip (bb : BBox) (rest : List BBox) (lab : String)
    (h : ¬bb.label = some lab) :
    groupOf (bb :: rest) lab = groupOf rest lab := by
  simp [groupOf, List.filter_cons, h]

theorem groupOf_cons_keep (bb : BBox) (rest : List BBox) (lab : String)
    (h : bb.label = some lab) :
    groupOf (bb :: rest) lab = ⟨bb.x1, bb.y1, bb.x2, bb.y2⟩ :: groupOf rest lab := by
  simp [groupOf, List.filter_cons, h]

theorem saveJson_fold_some (l : List BBox) (lab : String) (hlab : lab ≠ "") :
    ∀ (data : List (String × List Box4)) (xs : List Box4),
      dataFind data lab = some xs →
      dataFind (l.foldl saveJsonStep data) lab = some (xs ++ groupOf l lab) := by
  induction l with
  | nil => intro data xs h; simpa [groupOf] using h
  | cons bb rest ih =>
    intro data xs h
    rw [List.foldl_cons]
    cases hl : bb.label with
    | none =>
      have hstep : saveJsonStep data bb = data := by simp [saveJsonStep, hl]
      have hne : ¬bb.label = some lab := by simp [hl]
      rw [hstep, groupOf_cons_skip bb rest lab hne]
      exact ih data xs h
    | some L =>
      by_cases hL : L = ""
      · have hstep : saveJsonStep data bb = data := by simp [saveJsonStep, hl, hL]
        have hne : ¬bb.label = some lab := by
          rw [hl, hL]
          exact fun hh => hlab (Option.some.inj hh).symm
        rw [hstep, groupOf_cons_skip bb rest lab hne]
        exact ih data xs h
      · have hstep : saveJsonStep data bb =
            addBoxToData data L ⟨bb.x1, bb.y1, bb.x2, bb.y2⟩ := by
          simp [saveJsonStep, hl, hL]
        rw [hstep]
        by_cases hLlab : L = lab
        · subst hLlab
          have hfind2 : dataFind (addBoxToData data L ⟨bb.x1, bb.y1, bb.x2, bb.y2⟩) L =
              some (xs ++ [⟨bb.x1, bb.y1, bb.x2, bb.y2⟩]) := by
            rw [dataFind_addBoxToData, if_pos rfl, h]
          rw [groupOf_cons_keep bb rest L hl, ih _ _ hfind2]
          simp
        · have hfind2 : dataFind (addBoxToData data L ⟨bb.x1, bb.y1, bb.x2, bb.y2⟩) lab =
              some xs := by
            rw [dataFind_addBoxToData, if_neg (fun hh => hLlab hh.symm)]
            exact h
          have hne : ¬bb.label = some lab := by
            rw [hl]
            exact fun hh => hLlab (Option.some.inj hh)
          rw [groupOf_cons_skip bb rest lab hne]
          exact ih _ _ hfind2

theorem saveJson_fold_none (l : List BBox) (lab : String) (hlab : lab ≠ "") :
    ∀ data : List (String × List Box4),
      dataFind data lab = none →
      dataFind (l.foldl saveJsonStep data) lab =
        if groupOf l lab = [] then none else some (groupOf l lab) := by
  induction l with
  | nil => intro data h; simp [groupOf, h]
  | cons bb rest ih =>
    intro data h
    rw [List.foldl_cons]
    cases hl : bb.label with
    | none =>
      have hstep : saveJsonStep data bb = data := by simp [saveJsonStep, hl]
      have hne : ¬bb.label = some lab := by simp [hl]
      rw [hstep, groupOf_cons_skip bb rest lab hne]
      exact ih data h
    | some L =>
      by_cases hL : L = ""
      · have hstep : saveJsonStep data bb = data := by simp [saveJsonStep, hl, hL]
        have hne : ¬bb.label = some lab := by
          rw [hl, hL]
          exact fun hh => hlab (Option.some.inj hh).symm
        rw [hstep, groupOf_cons_skip bb rest lab hne]
        exact ih data h
      · have hstep : saveJsonStep data bb =
            addBoxToData data L ⟨bb.x1, bb.y1, bb.x2, bb.y2⟩ := by
          simp [saveJsonStep, hl, hL]
        rw [hstep]
        by_cases hLlab : L = lab
        · subst hLlab
          have hfind2 : dataFind (addBoxToData data L ⟨bb.x1, bb.y1, bb.x2, bb.y2⟩) L =
              some [⟨bb.x1, bb.y1, bb.x2, bb.y2⟩] := by
            rw [dataFind_addBoxToData, if_pos rfl, h]
          rw [groupOf_cons_keep bb rest L hl,
            saveJson_fold_some rest L hlab _ _ hfind2]
          simp
        · have hfind2 : dataFind (addBoxToData data L ⟨bb.x1, bb.y1, bb.x2, bb.y2⟩) lab =
              none := by
            rw [dataFind_addBoxToData, if_neg (fun hh => hLlab hh.symm)]
            exact h
          have hne : ¬bb.label = some lab := by
            rw [hl]
            exact fun hh => hLlab (Option.some.inj hh)
          rw [groupOf_cons_skip bb rest lab hne]
          exact ih _ hfind2

theorem saveJson_fold_find_empty (l : List BBox) :
    ∀ data : List (String × List Box4),
      dataFind data "" = none →
      dataFind (l.foldl saveJsonStep data) "" = none := by
  induction l with
  | nil => intro data h; simpa using h
  | cons bb rest ih =>
    intro data h
    rw [List.foldl_cons]
    cases hl : bb.label with
    | none =>
      have hstep : saveJsonStep data bb = data := by simp [saveJsonStep, hl]
      rw [hstep]; exact ih data h
    | some L =>
      by_cases hL : L = ""
      · have hstep : saveJsonStep data bb = data := by simp [saveJsonStep, hl, hL]
        rw [hstep]; exact ih data h
      · have hstep : saveJsonStep data bb =
            addBoxToData data L ⟨bb.x1, bb.y1, bb.x2, bb.y2⟩ := by
          simp [saveJsonStep, hl, hL]
        rw [hstep]
        apply ih
        rw [dataFind_addBoxToData, if_neg (fun hh => hL hh.symm)]
        exact h

theorem saveJson_fold_id (l : List BBox) (h : ∀ b ∈ l, b.label = none) :
    ∀ data : List (String × List Box4), l.foldl saveJsonStep data = data := by
  induction l with
  | nil => intro data; rfl
  | cons bb rest ih =>
    intro data
    rw [List.foldl_cons]
    have hstep : saveJsonStep data bb = data := by
      simp [saveJsonStep, h bb (List.mem_cons_self bb rest)]
    rw [hstep]
    exact ih (fun b hb => h b (List.mem_cons_of_mem bb hb)) data

theorem saveAndNext_writes (g : GuiState) (p : FsPath)
    (hp : p = g.imagePaths.getD g.currentIndex.toNat default) :
    fsLookup (saveAndNext g).fs (savedJsonPath g p) =
      some (.annot (saveJsonFormat (currentBoxes g))) := by
  subst hp
  unfold saveAndNext savedJsonPath
  cases ho : g.outputDir with
  | some od =>
    simp only [ho, updateAfterRemoval_fs]
    rw [fsLookup_fsSet, if_pos rfl]
  | none =>
    simp only [ho, updateAfterRemoval_fs]
    rw [fsLookup_fsSet, if_pos rfl]

/-- C6: `save_and_next` persists the current image's annotations as a JSON
annotation file next to the image (or in the fixup output directory, under
the suffix-stripped name): every box with a (non-empty) label is written
grouped under its label with its `x1,y1,x2,y2` coordinates in drawing order,
unlabeled boxes are omitted, no empty-string group is ever written, and when
no box is labeled the annotation file is still written, empty. -/
theorem c6_save_persists_annotations (g : GuiState) (p : FsPath)
    (hp : p = g.imagePaths.getD g.currentIndex.toNat default) :
    fsLookup (saveAndNext g).fs (savedJsonPath g p) =
      some (.annot (saveJsonFormat (currentBoxes g))) ∧
    (∀ lab : String, lab ≠ "" →
      dataFind (saveJsonFormat (currentBoxes g)) lab =
        if groupOf (currentBoxes g) lab = [] then none
        else some (groupOf (currentBoxes g) lab)) ∧
    dataFind (saveJsonFormat (currentBoxes g)) "" = none ∧
    ((∀ b ∈ currentBoxes g, b.label = none) →
      saveJsonFormat (currentBoxes g) = []) := by
  refine ⟨saveAndNext_writes g p hp, ?_, ?_, ?_⟩
  · intro lab hlab
    exact saveJson_fold_none (currentBoxes g) lab hlab [] rfl
  · exact saveJson_fold_find_empty (currentBoxes g) [] rfl
  · intro h
    exact saveJson_fold_id (currentBoxes g) h []

/-- Witness for C6: saving an image with one box labeled `cats` and one
unlabeled box writes `photos/cat.json` holding exactly the labeled box under
`cats`. -/
theorem c6_save_persists_annotations_witness :
    fsLookup
      (saveAndNext
        { exState with imagePaths := [exImg], fs := [(exImg, FileData.raw 7)],
                       heap := [⟨1, 2, 3, 4, some "cats"⟩, ⟨5, 6, 7, 8, none⟩],
                       bboxes := [0, 1] }).fs
      (savedJsonPath
        { exState with imagePaths := [exImg], fs := [(exImg, FileData.raw 7)],
                       heap := [⟨1, 2, 3, 4, some "cats"⟩, ⟨5, 6, 7, 8, none⟩],
                       bboxes := [0, 1] } exImg) =
      some (.annot (saveJsonFormat (currentBoxes
        { exState with imagePaths := [exImg], fs := [(exImg, FileData.raw 7)],
                       heap := [⟨1, 2, 3, 4, some "cats"⟩, ⟨5, 6, 7, 8, none⟩],
                       bboxes := [0, 1] }))) ∧
    dataFind (saveJsonFormat (currentBoxes
        { exState with imagePaths := [exImg], fs := [(exImg, FileData.raw 7)],
                       heap := [⟨1, 2, 3, 4, some "cats"⟩, ⟨5, 6, 7, 8, none⟩],
                       bboxes := [0, 1] })) "cats" =
      if groupOf (currentBoxes
        { exState with imagePaths := [exImg], fs := [(exImg, FileData.raw 7)],
                       heap := [⟨1, 2, 3, 4, some "cats"⟩, ⟨5, 6, 7, 8, none⟩],
                       bboxes := [0, 1] }) "cats" = [] then none
      else some (groupOf (currentBoxes
        { exState with imagePaths := [exImg], fs := [(exImg, FileData.raw 7)],
                       heap := [⟨1, 2, 3, 4, some "cats"⟩, ⟨5, 6, 7, 8, none⟩],
                       bboxes := [0, 1] }) "cats") :=
  ⟨(c6_save_persists_annotations
      { exState with imagePaths := [exImg], fs := [(exImg, FileData.raw 7)],
                     heap := [⟨1, 2, 3, 4, some "cats"⟩, ⟨5, 6, 7, 8, none⟩],
                     bboxes := [0, 1] } exImg rfl).1,
   (c6_save_persists_annotations
      { exState with imagePaths := [exImg], fs := [(exImg, FileData.raw 7)],
                     heap := [⟨1, 2, 3, 4, some "cats"⟩, ⟨5, 6, 7, 8, none⟩],
                     bboxes := [0, 1] } exImg rfl).2.1 "cats" (by decide)⟩

/-! ## Claim C1 -/

theorem mem_setInsert (s : List FsPath) (p q : FsPath) :
    q ∈ setInsert s p ↔ q ∈ s ∨ q = p := by
  by_cases h : p ∈ s
  · simp only [setInsert, if_pos h]
    constructor
    · exact Or.inl
    · rintro (hq | rfl)
      · exact hq
      · exact h
  · simp [setInsert, if_neg h, List.mem_append]

theorem mem_insertAll (l : List FsPath) :
    ∀ (s : List FsPath) (q : FsPath), q ∈ insertAll s l ↔ q ∈ s ∨ q ∈ l := by
  induction l with
  | nil => simp [insertAll]
  | cons p rest ih =>
    intro s q
    have hstep : insertAll s (p :: rest) = insertAll (setInsert s p) rest := by
      simp [insertAll]
    rw [hstep, ih, mem_setInsert]
    simp [List.mem_cons]
    tauto

theorem pending_finalizeList (l : List UAction) :
    ∀ (g : GuiState) (q : FsPath),
      q ∈ (finalizeList g l).pending ↔
        q ∈ g.pending ∨ ∃ a ∈ l, q ∈ stagedPaths a := by
  induction l with
  | nil => simp [finalizeList]
  | cons a rest ih =>
    intro g q
    have hstep : finalizeList g (a :: rest) = finalizeList (finalizeAction a g) rest := by
      simp [finalizeList]
    rw [hstep, ih, finalizeAction_eq]
    simp only [mem_insertAll, List.mem_cons]
    constructor
    · rintro ((hq | hq) | ⟨b, hb, hq⟩)
      · exact Or.inl hq
      · exact Or.inr ⟨a, Or.inl rfl, hq⟩
      · exact Or.inr ⟨b, Or.inr hb, hq⟩
    · rintro (hq | ⟨b, (rfl | hb), hq⟩)
      · exact Or.inl (Or.inl hq)
      · exact Or.inl (Or.inr hq)
      · exact Or.inr ⟨b, hb, hq⟩

theorem registerSeq_characterize (m : Nat) (hm : 0 < m) :
    ∀ (acts : List UAction) (g : GuiState) (s : List UAction), s.length ≤ m →
      registerSeq m (g, s) acts =
        (finalizeList g ((s ++ acts).take ((s ++ acts).length - m)),
         (s ++ acts).drop ((s ++ acts).length - m)) := by
  intro acts
  induction acts with
  | nil =>
    intro g s hs
    have h0 : s.length - m = 0 := by omega
    simp [registerSeq, h0, finalizeList]
  | cons a rest ih =>
    intro g s hs
    have hstep : registerSeq m (g, s) (a :: rest) =
        registerSeq m (registerAction m (g, s) a) rest := by
      simp [registerSeq]
    rw [hstep]
    by_cases hfull : s.length = m
    · have hreg : registerAction m (g, s) a = (finalizeAction (s.headD a) g, s.tail ++ [a]) := by
        simp [registerAction, hfull]
      rw [hreg]
      cases s with
      | nil => exfalso; simp at hfull; omega
      | cons x t =>
        have htail : (x :: t).tail = t := rfl
        have hhead : (x :: t).headD a = x := rfl
        rw [htail, hhead]
        have hlen : (t ++ [a]).length ≤ m := by
          simp at hfull ⊢
          omega
        rw [ih _ _ hlen]
        have hassoc : (t ++ [a]) ++ rest = t ++ a :: rest := by simp
        have htlen : t.length + 1 = m := by simpa using hfull
        have hlen2 : ((t ++ [a]) ++ rest).length - m = rest.length := by
          simp
          omega
        have hlen1 : ((x :: t) ++ a :: rest).length - m = rest.length + 1 := by
          simp
          omega
        rw [hlen2, hlen1, hassoc]
        have hcons : (x :: t) ++ a :: rest = x :: (t ++ a :: rest) := rfl
        rw [hcons, List.take_succ_cons, List.drop_succ_cons]
        have hfin : finalizeList g (x :: (t ++ a :: rest).take rest.length) =
            finalizeList (finalizeAction x g) ((t ++ a :: rest).take rest.length) := by
          simp [finalizeList]
        rw [hfin]
    · have hreg : registerAction m (g, s) a = (g, s ++ [a]) := by
        simp [registerAction, hfull]
      rw [hreg]
      have hlen : (s ++ [a]).length ≤ m := by
        simp
        omega
      rw [ih _ _ hlen]
      have hassoc : (s ++ [a]) ++ rest = s ++ a :: rest := by simp
      rw [hassoc]

/-- C1 counterexample: the claim as stated is false.  `handle_delete_key`
stages at `Path(temp_dir) / image_path.name`, so hard-deleting two same-named
files (`photos2021/cat.jpg`, then `photos2022/cat.jpg`) stages both at
`tmpdir/cat.jpg`.  With capacity 1, registering the second action finalizes
the first, which puts `tmpdir/cat.jpg` into the pending set — scheduling the
staged copy for permanent deletion — while the second `DeleteFileAction`,
whose staged copy lives at that very path, is still in the file undo stack. -/
theorem c1_counterexample_shared_staged_path :
    exDelShared2 ∈ (registerSeq 1 (exState, []) [exDelShared1, exDelShared2]).2 ∧
    (⟨"tmpdir", "cat", "jpg"⟩ : FsPath) ∈ stagedPaths exDelShared2 ∧
    (⟨"tmpdir", "cat", "jpg"⟩ : FsPath) ∈
      (registerSeq 1 (exState, []) [exDelShared1, exDelShared2]).1.pending := by
  decide

/-- C1 (amended): along every sequence of registered actions whose distinct
hard-delete registrations stage distinct temp paths (no two hard-deleted
files share a file name), a hard-deleted file's staged copy is never
scheduled for permanent deletion (never enters the pending set) while its
`DeleteFileAction` is still in the file undo stack; and when an action is
registered while the stack holds `max_size` actions, the oldest action is
finalized — scheduling its staged image and JSON files — and only then
evicted, the stack becoming its tail plus the new action. -/
theorem c1_staged_copy_outlives_stack_residence (m : Nat) (acts : List UAction)
    (g0 : GuiState) (hm : 0 < m) (hp0 : g0.pending = [])
    (hnd : (acts.map stagedPaths).flatten.Nodup) :
    (∀ a ∈ (registerSeq m (g0, []) acts).2, ∀ q ∈ stagedPaths a,
       q ∉ (registerSeq m (g0, []) acts).1.pending) ∧
    (∀ (g : GuiState) (s : List UAction) (b : UAction), s.length = m →
       (registerAction m (g, s) b).2 = s.tail ++ [b] ∧
       ∀ q ∈ stagedPaths (s.headD b), q ∈ (registerAction m (g, s) b).1.pending) := by
  constructor
  · have hchar := registerSeq_characterize m hm acts g0 [] (by simp)
    rw [List.nil_append] at hchar
    rw [hchar]
    intro a ha q hq hmem
    rw [pending_finalizeList] at hmem
    rcases hmem with hmem | ⟨b, hb, hqb⟩
    · rw [hp0] at hmem
      exact absurd hmem (List.not_mem_nil q)
    · have hsplit : acts.map stagedPaths =
          (acts.take (acts.length - m)).map stagedPaths ++
          (acts.drop (acts.length - m)).map stagedPaths := by
        rw [← List.map_append, List.take_append_drop]
      rw [hsplit, List.flatten_append] at hnd
      have hdisj := (List.nodup_append.mp hnd).2.2
      exact hdisj
        (List.mem_flatten.mpr ⟨stagedPaths b, List.mem_map_of_mem _ hb, hqb⟩)
        (List.mem_flatten.mpr ⟨stagedPaths a, List.mem_map_of_mem _ ha, hq⟩)
  · intro g s b hlen
    constructor
    · simp [registerAction, hlen]
    · intro q hq
      have hreg : (registerAction m (g, s) b).1 = finalizeAction (s.headD b) g := by
        simp [registerAction, hlen]
      rw [hreg, finalizeAction_eq]
      simp only [mem_insertAll]
      exact Or.inr hq

/-- Witness for C1: with capacity 1, registering two hard deletes finalizes
and evicts the first; the second action's staged copy is not pending. -/
theorem c1_staged_copy_outlives_stack_residence_witness :
    (⟨"tmpdir", "dog", "jpg"⟩ : FsPath) ∉
      (registerSeq 1 (exState, []) [exDel1, exDel2]).1.pending :=
  (c1_staged_copy_outlives_stack_residence 1 [exDel1, exDel2] exState
    (by decide) rfl (by decide)).1 exDel2 (by decide)
    ⟨"tmpdir", "dog", "jpg"⟩ (by decide)

/-! ## Claims C3 and C9 -/

theorem cleanupStep_dry_fs (hashFn : Content → String) (s : CleanupState) (p : FsPath) :
    (cleanupStep hashFn true s p).fs = s.fs := by
  simp only [cleanupStep]
  split
  · rfl
  · split
    · rfl
    · split
      · simp
      · rfl

theorem cleanup_dry_fs (hashFn : Content → String) (l : List FsPath) (s : CleanupState) :
    (l.foldl (cleanupStep hashFn true) s).fs = s.fs :=
  foldl_pres (fun s => s.fs) _ (cleanupStep_dry_fs hashFn) l s

theorem cleanupStep_dry_eq_meta (hashFn : Content → String) (fs0 : CFs)
    (m : List ((Nat × String) × FsPath)) (c : Nat) (p : FsPath) :
    cleanupStep hashFn true ⟨fs0, m, c⟩ p =
      ⟨fs0, (specMetaStep hashFn fs0 (m, c) p).1, (specMetaStep hashFn fs0 (m, c) p).2⟩ := by
  simp only [cleanupStep, specMetaStep, specStep]
  split
  · rfl
  · split
    · rfl
    · split
      · simp
      · rfl

theorem cleanup_dry_eq_meta (hashFn : Content → String) (fs0 : CFs) (l : List FsPath) :
    ∀ (m : List ((Nat × String) × FsPath)) (c : Nat),
      l.foldl (cleanupStep hashFn true) ⟨fs0, m, c⟩ =
        ⟨fs0, (l.foldl (specMetaStep hashFn fs0) (m, c)).1,
              (l.foldl (specMetaStep hashFn fs0) (m, c)).2⟩ := by
  induction l with
  | nil => intro m c; rfl
  | cons p rest ih =>
    intro m c
    rw [List.foldl_cons, List.foldl_cons, cleanupStep_dry_eq_meta]
    rcases hspec : specMetaStep hashFn fs0 (m, c) p with ⟨m2, c2⟩
    exact ih m2 c2

theorem cleanup_real_eq_dry (hashFn : Content → String) (fs0 : CFs) :
    ∀ (l : List FsPath) (fsR : CFs) (m : List ((Nat × String) × FsPath)) (c : Nat),
      l.Nodup →
      (∀ p ∈ l, p.ext ≠ "json") →
      l.Pairwise (fun a b => withSuffixJson a ≠ withSuffixJson b) →
      (∀ p ∈ l, fsLookup fsR p = fsLookup fs0 p) →
      (∀ p ∈ l, fsLookup fsR (withSuffixJson p) = fsLookup fs0 (withSuffixJson p)) →
      (l.foldl (cleanupStep hashFn false) ⟨fsR, m, c⟩).count =
        (l.foldl (specMetaStep hashFn fs0) (m, c)).2 := by
  intro l
  induction l with
  | nil => intro fsR m c _ _ _ _ _; rfl
  | cons p rest ih =>
    intro fsR m c hnd hext hpw hagree hagreeMd
    have hmem : p ∈ p :: rest := List.mem_cons_self p rest
    have hmd : fsLookup fsR (withSuffixJson p) = fsLookup fs0 (withSuffixJson p) :=
      hagreeMd p hmem
    have hkey : calculateKey hashFn fsR p = calculateKey hashFn fs0 p := by
      unfold calculateKey
      rw [hagree p hmem]
    have hndr := hnd.of_cons
    have hextr : ∀ q ∈ rest, q.ext ≠ "json" :=
      fun q hq => hext q (List.mem_cons_of_mem p hq)
    have hpwr := hpw.of_cons
    have hagreer : ∀ q ∈ rest, fsLookup fsR q = fsLookup fs0 q :=
      fun q hq => hagree q (List.mem_cons_of_mem p hq)
    have hagreeMdr : ∀ q ∈ rest,
        fsLookup fsR (withSuffixJson q) = fsLookup fs0 (withSuffixJson q) :=
      fun q hq => hagreeMd q (List.mem_cons_of_mem p hq)
    rw [List.foldl_cons, List.foldl_cons]
    by_cases hmdn : (fsLookup fs0 (withSuffixJson p)).isNone = true
    · have hstepL : cleanupStep hashFn false ⟨fsR, m, c⟩ p = ⟨fsR, m, c⟩ := by
        simp only [cleanupStep]
        rw [if_pos]
        show (fsLookup fsR (withSuffixJson p)).isNone = true
        rw [hmd]
        exact hmdn
      have hstepR : specMetaStep hashFn fs0 (m, c) p = (m, c) := by
        simp only [specMetaStep]
        rw [if_pos hmdn]
      rw [hstepL, hstepR]
      exact ih fsR m c hndr hextr hpwr hagreer hagreeMdr
    · have hmdR : ¬(fsLookup fsR (withSuffixJson p)).isNone = true := by
        rw [hmd]
        exact hmdn
      cases hk : calculateKey hashFn fs0 p with
      | none =>
        have hstepL : cleanupStep hashFn false ⟨fsR, m, c⟩ p = ⟨fsR, m, c⟩ := by
          simp only [cleanupStep]
          rw [if_neg hmdR, hkey, hk]
        have hstepR : specMetaStep hashFn fs0 (m, c) p = (m, c) := by
          simp only [specMetaStep, specStep]
          rw [if_neg hmdn, hk]
        rw [hstepL, hstepR]
        exact ih fsR m c hndr hextr hpwr hagreer hagreeMdr
      | some key =>
        by_cases hhas : hasKey m key = true
        · have hstepL : cleanupStep hashFn false ⟨fsR, m, c⟩ p =
              ⟨fsErase (fsErase fsR p) (withSuffixJson p), m, c + 1⟩ := by
            simp only [cleanupStep]
            rw [if_neg hmdR, hkey, hk]
            simp only [hhas, if_true, ite_true, Bool.false_eq_true, if_false, ite_false]
          have hstepR : specMetaStep hashFn fs0 (m, c) p = (m, c + 1) := by
            simp only [specMetaStep, specStep]
            rw [if_neg hmdn, hk]
            simp only [hhas, if_true, ite_true]
          rw [hstepL, hstepR]
          have hpne : p ∉ rest := (List.nodup_cons.mp hnd).1
          have hagree2 : ∀ q ∈ rest,
              fsLookup (fsErase (fsErase fsR p) (withSuffixJson p)) q = fsLookup fs0 q := by
            intro q hq
            have hq_ne_p : ¬p = q := fun hh => hpne (hh ▸ hq)
            have hq_ne_md : ¬withSuffixJson p = q := by
              intro hh
              exact hextr q hq (hh ▸ rfl)
            rw [fsLookup_fsErase, if_neg hq_ne_md, fsLookup_fsErase, if_neg hq_ne_p]
            exact hagreer q hq
          have hagreeMd2 : ∀ q ∈ rest,
              fsLookup (fsErase (fsErase fsR p) (withSuffixJson p)) (withSuffixJson q) =
                fsLookup fs0 (withSuffixJson q) := by
            intro q hq
            have hmd_ne : ¬withSuffixJson p = withSuffixJson q :=
              (List.pairwise_cons.mp hpw).1 q hq
            have hp_ne_md : ¬p = withSuffixJson q := by
              intro hh
              exact hext p hmem (by rw [hh]; rfl)
            rw [fsLookup_fsErase, if_neg hmd_ne, fsLookup_fsErase, if_neg hp_ne_md]
            exact hagreeMdr q hq
          exact ih _ m (c + 1) hndr hextr hpwr hagree2 hagreeMd2
        · have hstepL : cleanupStep hashFn false ⟨fsR, m, c⟩ p =
              ⟨fsR, insertKey m key p, c⟩ := by
            simp only [cleanupStep]
            rw [if_neg hmdR, hkey, hk]
            simp only [hhas, Bool.false_eq_true, if_false, ite_false]
          have hstepR : specMetaStep hashFn fs0 (m, c) p = (insertKey m key p, c) := by
            simp only [specMetaStep, specStep]
            rw [if_neg hmdn, hk]
            simp only [hhas, Bool.false_eq_true, if_false, ite_false]
          rw [hstepL, hstepR]
          exact ih fsR (insertKey m key p) c hndr hextr hpwr hagreer hagreeMdr

/-- C3 counterexample: an input image that is byte-for-byte identical to a
golden image but has no sibling `.json` metadata file.  The claim's criterion
counts it as a duplicate (count 1); `cleanup_images` skips it entirely and
returns 0. -/
theorem c3_counterexample_missing_metadata :
    (cleanupImages exHash exCFsNoMd [exGolden] [⟨"in", "a", "jpg"⟩] true).count ≠
      specDuplicateCount exHash exCFsNoMd [exGolden] [⟨"in", "a", "jpg"⟩] := by
  decide

/-- C3 (amended): `cleanup_images` treats an input image as a duplicate
exactly when it has a sibling `.json` metadata file and its `(size, hash)`
pair equals that of a previously recorded image (golden, or earlier kept
input image with metadata); the first-seen image of each pair is kept, each
later duplicate is counted, and the count is returned.  (For non-dry runs
this requires that no two input images share a metadata path and no input
image has extension `json`, so deletions cannot disturb later iterations.) -/
theorem c3_duplicate_criterion_amended (hashFn : Content → String) (fs : CFs)
    (golden images : List FsPath) (dryRun : Bool)
    (hnd : images.Nodup)
    (hext : ∀ p ∈ images, p.ext ≠ "json")
    (hpw : images.Pairwise (fun a b => withSuffixJson a ≠ withSuffixJson b)) :
    (cleanupImages hashFn fs golden images dryRun).count =
      specDuplicateCountMeta hashFn fs golden images := by
  cases dryRun with
  | false =>
    unfold cleanupImages specDuplicateCountMeta
    exact cleanup_real_eq_dry hashFn fs images fs (goldenScan hashFn fs golden) 0
      hnd hext hpw (fun _ _ => rfl) (fun _ _ => rfl)
  | true =>
    unfold cleanupImages specDuplicateCountMeta
    rw [cleanup_dry_eq_meta]

/-- Witness for the amended C3 at the concrete duplicate example. -/
theorem c3_duplicate_criterion_amended_witness :
    (cleanupImages exHash exCFs [exGolden] [exInA] false).count =
      specDuplicateCountMeta exHash exCFs [exGolden] [exInA] :=
  c3_duplicate_criterion_amended exHash exCFs [exGolden] [exInA] false
    (by decide) (by decide) (by decide)

/-- C9 counterexample: inputs `in/a.jpeg` and `in/a.jpg` share the metadata
path `in/a.json` and both duplicate the golden image.  The dry run counts 2;
the actual run deletes `in/a.jpeg` together with `in/a.json`, after which
`in/a.jpg` has no metadata and is skipped, so it counts 1. -/
theorem c9_counterexample_shared_metadata :
    (cleanupImages exHash exCFs [exGolden] [exInA, exInB] true).count ≠
      (cleanupImages exHash exCFs [exGolden] [exInA, exInB] false).count := by
  decide

/-- C9 (amended): `cleanup_images` with `dry_run=True` unlinks no file — the
filesystem is returned unchanged — and reports the same `duplicates_found`
count as an actual run provided no two input images share a metadata path
(and no input image has extension `json`). -/
theorem c9_dry_run_amended (hashFn : Content → String) (fs : CFs)
    (golden images : List FsPath) :
    (cleanupImages hashFn fs golden images true).fs = fs ∧
    (images.Nodup →
      (∀ p ∈ images, p.ext ≠ "json") →
      images.Pairwise (fun a b => withSuffixJson a ≠ withSuffixJson b) →
      (cleanupImages hashFn fs golden images true).count =
        (cleanupImages hashFn fs golden images false).count) := by
  constructor
  · exact cleanup_dry_fs hashFn images _
  · intro hnd hext hpw
    unfold cleanupImages
    rw [cleanup_dry_eq_meta]
    exact (cleanup_real_eq_dry hashFn fs images fs (goldenScan hashFn fs golden) 0
      hnd hext hpw (fun _ _ => rfl) (fun _ _ => rfl)).symm

/-- Witness for the amended C9 at a concrete two-image input with distinct
metadata paths. -/
theorem c9_dry_run_amended_witness :
    (cleanupImages exHash exCFs [exGolden] [exInA, ⟨"in", "b", "jpg"⟩] true).fs = exCFs ∧
    (cleanupImages exHash exCFs [exGolden] [exInA, ⟨"in", "b", "jpg"⟩] true).count =
      (cleanupImages exHash exCFs [exGolden] [exInA, ⟨"in", "b", "jpg"⟩] false).count :=
  ⟨(c9_dry_run_amended exHash exCFs [exGolden] [exInA, ⟨"in", "b", "jpg"⟩]).1,
   (c9_dry_run_amended exHash exCFs [exGolden] [exInA, ⟨"in", "b", "jpg"⟩]).2
     (by decide) (by decide) (by decide)⟩

end UIC
